import Mathlib

/-!
Verification development for the polygon-bridging subsystem
(`PolygonConnector` in `src/utils/PolygonConnector.cpp`).

The C++ code is shallowly embedded below.  Machine integers (`coord_t`,
a 64-bit signed integer) are modelled as unbounded `Int`; the C++ sentinel
`std::numeric_limits<coord_t>::max()` is modelled by the concrete constant
`coord_t_max = 2^63 - 1`.  The two boundary-query primitives that live in
`PolygonUtils` (not part of the given sources) are taken as function
parameters ("oracles"), wrapped so that the facts the spec states about
their interface (the returned location lies on the polygon that the query
walked) hold by construction.
-/

/-- 2D integer point, as Cura's `Point` (`ClipperLib::IntPoint`). -/
structure Point where
  x : Int
  y : Int
deriving DecidableEq, Repr

instance : Inhabited Point := ⟨⟨0, 0⟩⟩

instance : Sub Point := ⟨fun p q => ⟨p.x - q.x, p.y - q.y⟩⟩

/-- `dot` from `linearAlg2D`: the 2D dot product. -/
def dot (p q : Point) : Int :=
  p.x * q.x + p.y * q.y

/-- `vSize2`: squared Euclidean length of a vector. -/
def vSize2 (p : Point) : Int :=
  p.x * p.x + p.y * p.y

/-- Binary search for the integer square root: given `lo * lo ≤ n < hi * hi`,
narrow `[lo, hi)` until `hi = lo + 1`.  Structurally recursive on `fuel` so
that the kernel can evaluate it. -/
def isqrtGo (n : Nat) : Nat → Nat → Nat → Nat
  | 0, lo, _ => lo
  | fuel + 1, lo, hi =>
    if hi ≤ lo + 1 then lo
    else
      let mid := (lo + hi) / 2
      if mid * mid ≤ n then isqrtGo n fuel mid hi else isqrtGo n fuel lo mid

/-- Floor integer square root (kernel-computable). -/
def isqrt (n : Nat) : Nat := isqrtGo n (n + 2) 0 (n + 1)

theorem isqrtGo_spec (n : Nat) : ∀ (fuel lo hi : Nat), lo * lo ≤ n → n < hi * hi →
    hi ≤ lo + fuel + 1 →
    isqrtGo n fuel lo hi * isqrtGo n fuel lo hi ≤ n ∧
      n < (isqrtGo n fuel lo hi + 1) * (isqrtGo n fuel lo hi + 1) := by
  intro fuel
  induction fuel with
  | zero =>
    intro lo hi hlo hhi hf
    simp only [isqrtGo]
    have hhi' : hi ≤ lo + 1 := hf
    exact ⟨hlo, lt_of_lt_of_le hhi (Nat.mul_le_mul hhi' hhi')⟩
  | succ fuel ih =>
    intro lo hi hlo hhi hf
    simp only [isqrtGo]
    by_cases hstop : hi ≤ lo + 1
    · simp only [hstop, if_true]
      exact ⟨hlo, lt_of_lt_of_le hhi (Nat.mul_le_mul hstop hstop)⟩
    · simp only [hstop, if_false]
      have hlt : lo + 1 < hi := Nat.lt_of_not_le hstop
      have hmid_lo : lo < (lo + hi) / 2 := by omega
      have hmid_hi : (lo + hi) / 2 < hi := by omega
      by_cases hm : (lo + hi) / 2 * ((lo + hi) / 2) ≤ n
      · simp only [hm, if_true]
        exact ih ((lo + hi) / 2) hi hm hhi (by omega)
      · simp only [hm, if_false]
        exact ih lo ((lo + hi) / 2) hlo (Nat.lt_of_not_le hm) (by omega)

/-- `isqrt` is the floor square root. -/
theorem isqrt_spec (n : Nat) : isqrt n * isqrt n ≤ n ∧ n < (isqrt n + 1) * (isqrt n + 1) := by
  have h := isqrtGo_spec n (n + 2) 0 (n + 1) (by omega) (by nlinarith) (by omega)
  exact h

/-- `isqrt` agrees with Mathlib's `Nat.sqrt`. -/
theorem isqrt_eq_sqrt (n : Nat) : isqrt n = Nat.sqrt n := by
  have h := isqrt_spec n
  have h1 : isqrt n ≤ Nat.sqrt n := Nat.le_sqrt.mpr (by nlinarith [h.1])
  have h2 : Nat.sqrt n ≤ isqrt n := by
    by_contra hc
    have : isqrt n + 1 ≤ Nat.sqrt n := by omega
    have := Nat.sqrt_le' n
    nlinarith [Nat.sqrt_le n, h.2]
  omega

/-- `vSize`: Euclidean length, `sqrt` truncated to an integer
(the C++ computes `sqrt` in floating point and truncates on conversion;
for the coordinate magnitudes involved in the claims this is the integer
square root). -/
def vSize (p : Point) : Int :=
  (isqrt (vSize2 p).toNat : Nat)

/-- `turn90CCW` from `linearAlg2D`: rotate a vector 90 degrees
counter-clockwise: `(x, y) ↦ (-y, x)`. -/
def turn90CCW (p : Point) : Point :=
  ⟨-p.y, p.x⟩

/-- A polygon together with an identity tag.  C++ identifies polygons by
the address of their underlying vertex storage (`ConstPolygonRef::data()`,
`ConstPolygonPointer`); `id` models that address, `pts` the vertex list. -/
structure PolyRef where
  id : Nat
  pts : List Point
deriving DecidableEq, Repr

/-- `ClosestPolygonPoint` (from `polygonUtils.h`, modelled from the spec,
section 3): a location on a polygon's boundary: the exact coordinate `p`,
the index of the vertex beginning the segment containing the point, and
the owning polygon. -/
structure ClosestPolygonPoint where
  p : Point
  point_idx : Nat
  poly : PolyRef
deriving DecidableEq, Repr

/-- `PolygonConnector::PolygonConnection`: an ordered pair of locations on
two different polygons. -/
structure PolygonConnection where
  «from» : ClosestPolygonPoint
  «to» : ClosestPolygonPoint
deriving DecidableEq, Repr

/-- Modelled from the spec (section 3): a connection's "distance" is the
squared Euclidean length between `from.p()` and `to.p()`
(`PolygonConnection::getDistance2` in `PolygonConnector.h`). -/
def PolygonConnection.getDistance2 (c : PolygonConnection) : Int :=
  vSize2 (c.«to».p - c.«from».p)

/-- `PolygonConnector::PolygonBridge`: the pair of connections `a`
(canonically left) and `b` (canonically right). -/
structure PolygonBridge where
  a : PolygonConnection
  b : PolygonConnection
deriving DecidableEq, Repr

/-- `std::numeric_limits<coord_t>::max()` for the 64-bit `coord_t`. -/
def coord_t_max : Int := 2 ^ 63 - 1

def pt0 : Point := ⟨0, 0⟩

/-- A default-constructed `PolyRef` (null `ConstPolygonPointer`). -/
def defaultPolyRef : PolyRef := ⟨0, []⟩

/-- A default-constructed `ClosestPolygonPoint`. -/
def defaultCPP : ClosestPolygonPoint := ⟨pt0, 0, defaultPolyRef⟩

/-- A default-constructed `PolygonConnection`. -/
def defaultConnection : PolygonConnection := ⟨defaultCPP, defaultCPP⟩

-- sanity examples (geometry primitives)
example : vSize (⟨10, 10⟩ - ⟨0, 0⟩ : Point) = 14 := by decide
example : turn90CCW ⟨0, -100⟩ = (⟨100, 0⟩ : Point) := by decide
example : (⟨⟨⟨1,2⟩,0,defaultPolyRef⟩,⟨⟨3,4⟩,0,defaultPolyRef⟩⟩ : PolygonConnection).getDistance2 = 8 := by decide

/-! ### The external boundary-query primitives (oracles)

`PolygonUtils::findSmallestConnection` and
`PolygonUtils::getNextParallelIntersection` belong to this repository but
are not among the given sources, so they enter the embedding as function
parameters.  Per the spec (section 4.1) they only refine / search locations
on the polygons they are handed, so the wrappers below keep each
`ClosestPolygonPoint`'s `poly` field fixed by construction. -/

/-- Oracle type for `PolygonUtils::findSmallestConnection(result, other)`:
it refines the two locations in place and is modelled as returning the new
`(point, point_idx)` data of each; the polygons referenced by the two
locations are unchanged (spec 4.1: it "refines a pair of
ClosestPolygonPoint ... to the locally closest matching pair"). -/
abbrev Fsc := ClosestPolygonPoint → ClosestPolygonPoint → (Point × Nat) × (Point × Nat)

/-- Oracle type for `PolygonUtils::getNextParallelIntersection(start,
line_to, dist, forward)`: from `start`, walk the boundary of `start`'s own
polygon and optionally return the `(point, point_idx)` of the first
boundary point at perpendicular offset `dist` from the line
`start.p() → line_to`. -/
abbrev Gnpi := ClosestPolygonPoint → Point → Int → Bool → Option (Point × Nat)

/-- Modelled from the spec (section 4.1): `getNextParallelIntersection`
walks the boundary of the polygon `start` lies on, so any location it
returns lies on that same polygon. -/
def getNextParallelIntersection (gnpi : Gnpi) (start : ClosestPolygonPoint)
    (line_to : Point) (dist : Int) (forward : Bool) : Option ClosestPolygonPoint :=
  (gnpi start line_to dist forward).map (fun r => ⟨r.1, r.2, start.poly⟩)

/-! ### `PolygonConnector::getConnection` (PolygonConnector.cpp:234-268) -/

/-- The loop of `getConnection`: iterate over `to_polygons`, skip the
polygon whose storage is `from_poly`'s own (`to_poly.data() ==
from_poly.data()`), refine `(from_location, to_location)` through
`findSmallestConnection`, track the best squared distance seen, and return
early as soon as a candidate beats `(line_width + 10)²`.  `from_location`
is declared outside the loop in the C++ and is threaded through the
iterations; `best`/`best_d2` model `best_connection` /
`best_connection_distance2`. -/
def getConnectionLoop (fsc : Fsc) (line_width : Int) (from_poly : PolyRef) :
    List PolyRef → ClosestPolygonPoint → PolygonConnection → Int → Option PolygonConnection
  | [], _, best, best_d2 =>
    if best_d2 = coord_t_max then none else some best
  | to_poly :: rest, from_location, best, best_d2 =>
    if to_poly.id = from_poly.id then
      getConnectionLoop fsc line_width from_poly rest from_location best best_d2
    else
      let r := fsc from_location ⟨pt0, 0, to_poly⟩
      let from_location' : ClosestPolygonPoint := ⟨r.1.1, r.1.2, from_location.poly⟩
      let to_location' : ClosestPolygonPoint := ⟨r.2.1, r.2.2, to_poly⟩
      let connection_distance2 := vSize2 (to_location'.p - from_location'.p)
      if connection_distance2 < best_d2 then
        if connection_distance2 < (line_width + 10) * (line_width + 10) then
          some ⟨from_location', to_location'⟩
        else
          getConnectionLoop fsc line_width from_poly rest from_location'
            ⟨from_location', to_location'⟩ connection_distance2
      else
        getConnectionLoop fsc line_width from_poly rest from_location' best best_d2

/-- `PolygonConnector::getConnection`. -/
def getConnection (fsc : Fsc) (line_width : Int) (from_poly : PolyRef)
    (to_polygons : List PolyRef) : Option PolygonConnection :=
  getConnectionLoop fsc line_width from_poly to_polygons
    ⟨pt0, 0, from_poly⟩ defaultConnection coord_t_max

/-! ### `PolygonConnector::getSecondConnection` (PolygonConnector.cpp:158-231) -/

/-- One iteration of the candidate-combination loop body
(PolygonConnector.cpp:187-217, for one `(from, to)` combination): skip if
the `to` candidate is absent, reject if the projections of the two
candidates on `shift` lie on different sides of the first connection,
otherwise take the combination when its `total_distance2` strictly improves
on the best so far. -/
def considerCombo (first : PolygonConnection) (shift : Point)
    (best : PolygonConnection × Int) (f : ClosestPolygonPoint)
    (to_opt : Option ClosestPolygonPoint) : PolygonConnection × Int :=
  match to_opt with
  | none => best
  | some t =>
    let from_projection := dot (f.p - first.«to».p) shift
    let to_projection := dot (t.p - first.«to».p) shift
    if from_projection * to_projection ≤ 0 then best
    else
      let total_distance2 :=
        vSize2 (f.p - t.p) + vSize2 (f.p - first.«from».p) + vSize (t.p - first.«to».p)
      if total_distance2 < best.2 then (⟨f, t⟩, total_distance2) else best

/-- The inner `break` condition of the `to_idx` loop: the check is reached
only when the `(from, to_a)` combination was scored (the `to` candidate
present and the projection test passed — the two `continue`s skip the
check), and it fires when `to_opt == to_b` compares equal as optionals;
the skipped `(from, to_b)` combination is then a value-duplicate of
`(from, to_a)`. -/
def innerBreak (first : PolygonConnection) (shift : Point) (f : ClosestPolygonPoint)
    (to_a to_b : Option ClosestPolygonPoint) : Bool :=
  match to_a with
  | none => false
  | some t =>
    decide (dot (f.p - first.«to».p) shift * dot (t.p - first.«to».p) shift > 0)
      && decide (to_a = to_b)

/-- One iteration of the outer `from_idx` loop (the inner `to_idx` loop for
one `from` candidate). -/
def comboRow (first : PolygonConnection) (shift : Point)
    (best : PolygonConnection × Int) (from_opt to_a to_b : Option ClosestPolygonPoint) :
    PolygonConnection × Int :=
  match from_opt with
  | none => best
  | some f =>
    let b1 := considerCombo first shift best f to_a
    if innerBreak first shift f to_a to_b then b1 else considerCombo first shift b1 f to_b

/-- The full candidate-selection nest of `getSecondConnection`
(PolygonConnector.cpp:176-222): `best` starts as a default-constructed
connection with distance `coord_t_max`; the outer `break` fires when
`from_a == to from_b` as optionals, in which case the second row consists of
value-duplicates. -/
def secondConnectionBest (first : PolygonConnection)
    (from_a from_b to_a to_b : Option ClosestPolygonPoint) : PolygonConnection × Int :=
  let shift := turn90CCW (first.«from».p - first.«to».p)
  let b0 : PolygonConnection × Int := (defaultConnection, coord_t_max)
  let b2 := comboRow first shift b0 from_a to_a to_b
  if from_a = from_b then b2 else comboRow first shift b2 from_b to_a to_b

/-- `PolygonConnector::getSecondConnection`. -/
def getSecondConnection (gnpi : Gnpi) (max_dist : Int) (first : PolygonConnection)
    (shift_distance : Int) : Option PolygonConnection :=
  let forward := true
  match getNextParallelIntersection gnpi first.«from» first.«to».p shift_distance forward with
  | none => none
  | some from_a =>
    let from_b := getNextParallelIntersection gnpi first.«from» first.«to».p shift_distance (!forward)
    match getNextParallelIntersection gnpi first.«to» first.«from».p shift_distance forward with
    | none => none
    | some to_a =>
      let to_b := getNextParallelIntersection gnpi first.«to» first.«from».p shift_distance (!forward)
      let best := secondConnectionBest first (some from_a) from_b (some to_a) to_b
      if best.2 > max_dist * max_dist + 2 * (shift_distance + 10) * (shift_distance + 10) then
        none
      else
        some best.1

/-- The list of `from` candidates of `getSecondConnection` that are present
(`from_a` then `from_b`). -/
def fromCandidates (gnpi : Gnpi) (first : PolygonConnection) (shift_distance : Int) :
    List ClosestPolygonPoint :=
  [getNextParallelIntersection gnpi first.«from» first.«to».p shift_distance true,
   getNextParallelIntersection gnpi first.«from» first.«to».p shift_distance false].filterMap id

/-- The list of `to` candidates of `getSecondConnection` that are present
(`to_a` then `to_b`). -/
def toCandidates (gnpi : Gnpi) (first : PolygonConnection) (shift_distance : Int) :
    List ClosestPolygonPoint :=
  [getNextParallelIntersection gnpi first.«to» first.«from».p shift_distance true,
   getNextParallelIntersection gnpi first.«to» first.«from».p shift_distance false].filterMap id

/-- A `(from, to)` candidate combination survives the side-rejection test of
`getSecondConnection` (PolygonConnector.cpp:198-203). -/
def survivesSideTest (first : PolygonConnection) (f t : ClosestPolygonPoint) : Prop :=
  dot (f.p - first.«to».p) (turn90CCW (first.«from».p - first.«to».p)) *
    dot (t.p - first.«to».p) (turn90CCW (first.«from».p - first.«to».p)) > 0

instance (first : PolygonConnection) (f t : ClosestPolygonPoint) :
    Decidable (survivesSideTest first f t) :=
  inferInstanceAs (Decidable (_ * _ > 0))

/-- The scoring expression of the source (PolygonConnector.cpp:205):
`vSize2(from - to) + vSize2(from - first.from) + vSize(to - first.to)` —
two squared distances plus one non-squared distance. -/
def totalDistance2 (first : PolygonConnection) (f t : ClosestPolygonPoint) : Int :=
  vSize2 (f.p - t.p) + vSize2 (f.p - first.«from».p) + vSize (t.p - first.«to».p)

/-- The scoring formula as the claim words it (sum of the three plain
Euclidean distances); stated for comparison against `totalDistance2`,
the expression the source actually minimises. -/
def plainDistanceScore (first : PolygonConnection) (f t : ClosestPolygonPoint) : Int :=
  vSize (f.p - t.p) + vSize (f.p - first.«from».p) + vSize (t.p - first.«to».p)

/-! ### `PolygonConnector::getBridge` (PolygonConnector.cpp:118-156) -/

/-- `PolygonConnector::getBridge`.  The `pair` value models the two mutable
locals `connection` / `second_connection` after the retry block
(PolygonConnector.cpp:126-136): when the full-width search fails, retry at
half width; when that succeeds the code re-runs
`getSecondConnection(*connection, line_width)` — `connection` still holds
the connection obtained from `getConnection`. -/
def getBridge (gnpi : Gnpi) (fsc : Fsc) (line_width max_dist : Int) (from_poly : PolyRef)
    (to_polygons : List PolyRef) : Option PolygonBridge :=
  match getConnection fsc line_width from_poly to_polygons with
  | none => none
  | some conn =>
    if conn.getDistance2 > max_dist * max_dist then none
    else
      let pair : Option PolygonConnection × Option PolygonConnection :=
        match getSecondConnection gnpi max_dist conn line_width with
        | some s => (some conn, some s)
        | none =>
          match getSecondConnection gnpi max_dist conn (line_width / 2) with
          | some s2 => (getSecondConnection gnpi max_dist conn line_width, some s2)
          | none => (some conn, none)
      match pair with
      | (some c, some s) =>
        let a_vec := c.«to».p - c.«from».p
        let shift := turn90CCW a_vec
        if dot shift (s.«from».p - c.«from».p) > 0 then some ⟨s, c⟩ else some ⟨c, s⟩
      | _ => none

/-- `getBridge` as claim C4 words its recovery step: the full-width re-run
is "anchored at the new first connection", i.e. at the connection the
half-width retry just produced, instead of at the original first
connection.  Stated only for comparison with `getBridge`. -/
def getBridgeRecenterSpec (gnpi : Gnpi) (fsc : Fsc) (line_width max_dist : Int)
    (from_poly : PolyRef) (to_polygons : List PolyRef) : Option PolygonBridge :=
  match getConnection fsc line_width from_poly to_polygons with
  | none => none
  | some conn =>
    if conn.getDistance2 > max_dist * max_dist then none
    else
      let pair : Option PolygonConnection × Option PolygonConnection :=
        match getSecondConnection gnpi max_dist conn line_width with
        | some s => (some conn, some s)
        | none =>
          match getSecondConnection gnpi max_dist conn (line_width / 2) with
          | some s2 => (getSecondConnection gnpi max_dist s2 line_width, some s2)
          | none => (some conn, none)
      match pair with
      | (some c, some s) =>
        let a_vec := c.«to».p - c.«from».p
        let shift := turn90CCW a_vec
        if dot shift (s.«from».p - c.«from».p) > 0 then some ⟨s, c⟩ else some ⟨c, s⟩
      | _ => none

/-! ### `PolygonConnector::getPolygonDirection` (PolygonConnector.cpp:94-116) -/

/-- The vertex count walked from `from.point_idx` to `to.point_idx` in
increasing-index direction: `(to.point_idx - from.point_idx + n) % n`,
computed in `size_t` in the C++; for indices below `n` the wrap-around
arithmetic agrees with the integer remainder taken here. -/
def idxDistance (from_idx to_idx n : Nat) : Nat :=
  (((to_idx : Int) - (from_idx : Int) + (n : Int)) % (n : Int)).toNat

/-- `PolygonConnector::getPolygonDirection` (`char` return modelled as
`Int`, values `1` / `-1`).  Precondition in the source:
`from.poly == to.poly` (assertion). -/
def getPolygonDirection (cf ct : ClosestPolygonPoint) : Int :=
  let poly := cf.poly.pts
  if cf.point_idx = ct.point_idx then
    let prev_vert := poly.getD cf.point_idx pt0
    let from_dist2 := vSize2 (cf.p - prev_vert)
    let to_dist2 := vSize2 (ct.p - prev_vert)
    if to_dist2 > from_dist2 then 1 else -1
  else
    let a_to_b_vertex_count := idxDistance cf.point_idx ct.point_idx poly.length
    if a_to_b_vertex_count > poly.length / 2 then -1 else 1

/-! ### `PolygonConnector::addPolygonSegment` (PolygonConnector.cpp:65-92) -/

/-- The polygon index visited at iteration `vert_nr` of the
`addPolygonSegment` loop (PolygonConnector.cpp:79-82). -/
def segmentIdxAt (n start_idx : Nat) (dir : Int) (vert_nr : Nat) : Nat :=
  if dir > 0 then
    (start_idx + 1 + vert_nr) % n
  else
    (((start_idx : Int) - (vert_nr : Int) + (n : Int)) % (n : Int)).toNat

/-- The vertices appended by the loop of `addPolygonSegment`: the vertex of
iteration `0` is always appended (`first_iter`), then iterations
`1, …, n-1` append their vertex until one reaches the stop index
`(end.point_idx + (dir > 0 ? 1 : 0)) % n`.  Empty polygons never reach the
loop in the C++ (the direction computation divides by `n` first), so the
`n = 0` case is arbitrary and chosen empty. -/
def segmentVerts (poly : List Point) (start_idx end_idx : Nat) (dir : Int) : List Point :=
  let n := poly.length
  if n = 0 then []
  else
    let stop := (end_idx + (if dir > 0 then 1 else 0)) % n
    poly.getD (segmentIdxAt n start_idx dir 0) pt0 ::
      ((List.range' 1 (n - 1)).takeWhile (fun vert_nr => segmentIdxAt n start_idx dir vert_nr ≠ stop)).map
        (fun vert_nr => poly.getD (segmentIdxAt n start_idx dir vert_nr) pt0)

/-- `PolygonConnector::addPolygonSegment(start, end, result)`: appends
`start.p()`, the walked vertices, then `end.p()` to `result`.  The polygon
walked is `*end.poly` (the source asserts `start.poly == end.poly`). -/
def addPolygonSegment (start «end» : ClosestPolygonPoint) (result : List Point) : List Point :=
  let poly := «end».poly.pts
  let dir := getPolygonDirection «end» start
  result ++ [start.p] ++ segmentVerts poly start.point_idx «end».point_idx dir ++ [«end».p]

/-! ### `PolygonConnector::connectPolygonsAlongBridge` (PolygonConnector.cpp:47-63) -/

/-- `PolygonConnector::connectPolygonsAlongBridge`. -/
def connectPolygonsAlongBridge (bridge : PolygonBridge) : List Point :=
  let ret : List Point := []
  let ret := addPolygonSegment bridge.b.«from» bridge.a.«from» ret
  addPolygonSegment bridge.a.«to» bridge.b.«to» ret

/-! ### `PolygonConnector::connect` (PolygonConnector.cpp:10-44) -/

/-- The in-place overwrite `other_poly = connectPolygonsAlongBridge(...)`
(PolygonConnector.cpp:32-33): the worklist slot holding the polygon whose
storage the bridge's `a.to.poly` pointer refers to is overwritten with the
merged vertex list (the slot's storage — its identity — is reused).  If no
slot matches, the write goes through a pointer outside the worklist and the
worklist is unchanged. -/
def overwriteSlot (worklist : List PolyRef) (pid : Nat) (newPts : List Point) : List PolyRef :=
  match worklist.findIdx? (fun q => q.id = pid) with
  | some i => worklist.set i ⟨pid, newPts⟩
  | none => worklist

/-- The worklist after one iteration of `connect`'s main loop, given the
popped polygon `current` and the remaining worklist `rest`. -/
def connectStepWorklist (gb : PolyRef → List PolyRef → Option PolygonBridge)
    (current : PolyRef) (rest : List PolyRef) : List PolyRef :=
  match gb current rest with
  | some bridge => overwriteSlot rest bridge.a.«to».poly.id (connectPolygonsAlongBridge bridge)
  | none => rest

theorem overwriteSlot_length (worklist : List PolyRef) (pid : Nat) (newPts : List Point) :
    (overwriteSlot worklist pid newPts).length = worklist.length := by
  unfold overwriteSlot
  cases worklist.findIdx? (fun q => q.id = pid) <;> simp

theorem connectStepWorklist_length (gb : PolyRef → List PolyRef → Option PolygonBridge)
    (current : PolyRef) (rest : List PolyRef) :
    (connectStepWorklist gb current rest).length = rest.length := by
  unfold connectStepWorklist
  cases gb current rest <;> simp [overwriteSlot_length]

/-- The main loop of `connect` (PolygonConnector.cpp:21-41).  The worklist
is kept with the stack top (the C++ `back()`) at the head.  `ret` is the
output collection, `log` the diagnostics list `all_bridges`. -/
def connectLoop (gb : PolyRef → List PolyRef → Option PolygonBridge) :
    List PolyRef → List PolyRef → List PolygonBridge → List PolyRef × List PolygonBridge
  | [], ret, log => (ret, log)
  | current :: rest, ret, log =>
    match gb current rest with
    | some bridge =>
        connectLoop gb (overwriteSlot rest bridge.a.«to».poly.id (connectPolygonsAlongBridge bridge))
          ret (log ++ [bridge])
    | none => connectLoop gb rest (ret ++ [current]) log
termination_by to_connect _ _ => to_connect.length
decreasing_by
  · simp [overwriteSlot_length]
  · simp

/-- `PolygonConnector::connect`, parametric in the bridge search.  The
input polygons are copied into the worklist and popped from the back; the
reversal puts the first-popped polygon at the head. -/
def connect (gb : PolyRef → List PolyRef → Option PolygonBridge) (input : List PolyRef) :
    List PolyRef × List PolygonBridge :=
  connectLoop gb input.reverse [] []

/-- `PolygonConnector::connect` with the bridge search instantiated by
`getBridge` (the composition as in the source). -/
def connectFull (gnpi : Gnpi) (fsc : Fsc) (line_width max_dist : Int)
    (input : List PolyRef) : List PolyRef × List PolygonBridge :=
  connect (fun current rest => getBridge gnpi fsc line_width max_dist current rest) input

/-! ### Concrete scenarios

Two axis-aligned unit squares with a 100-unit gap (the spec's section 8
scenario 7 geometry), plus concrete instances of the two boundary-query
oracles.  Each oracle instance returns locations that do lie on the stated
polygon at the queried perpendicular offset, consistent with the interface
the spec gives the missing `PolygonUtils` code. -/

def sq1 : PolyRef := ⟨1, [⟨0,0⟩,⟨1000,0⟩,⟨1000,1000⟩,⟨0,1000⟩]⟩

def sq2 : PolyRef := ⟨2, [⟨1100,0⟩,⟨2100,0⟩,⟨2100,1000⟩,⟨1100,1000⟩]⟩

/-- `findSmallestConnection` instance for the two squares: the closest pair
`(1000, 500) ↔ (1100, 500)` at the midpoints of the two facing edges. -/
def fscW : Fsc := fun _ _ => ((⟨1000,500⟩, 1), (⟨1100,500⟩, 3))

/-- `getNextParallelIntersection` instance for the two squares: walking the
facing edges from the closest pair, the boundary reaches any perpendicular
offset `d ≤ 500` at `(1000, 500 ± d)` resp. `(1100, 500 ± d)`. -/
def gnpiW : Gnpi := fun start _ dist forward =>
  if start.p = ⟨1000,500⟩ then
    (if forward then some (⟨1000, 500 + dist⟩, 1) else some (⟨1000, 500 - dist⟩, 1))
  else if start.p = ⟨1100,500⟩ then
    (if forward then some (⟨1100, 500 + dist⟩, 3) else some (⟨1100, 500 - dist⟩, 3))
  else none

/-- The connection `getConnection` finds between the two squares. -/
def connW : PolygonConnection := ⟨⟨⟨1000,500⟩,1,sq1⟩, ⟨⟨1100,500⟩,3,sq2⟩⟩

/-- The bridge `getBridge` builds between the two squares (swap applied:
`a` is the upper connection). -/
def bridgeW : PolygonBridge :=
  ⟨⟨⟨⟨1000,900⟩,1,sq1⟩, ⟨⟨1100,900⟩,3,sq2⟩⟩, ⟨⟨⟨1000,500⟩,1,sq1⟩, ⟨⟨1100,500⟩,3,sq2⟩⟩⟩

/-- Scenario X: a polygon with a corner at the origin, and a second polygon
whose boundary passes `(0, 100)` and dips far below along `x ∈ [-20, 0]`. -/
def pA : PolyRef := ⟨1, [⟨0,-20⟩,⟨0,0⟩,⟨-20,0⟩,⟨-20,-20⟩]⟩

def pB : PolyRef := ⟨2, [⟨0,100⟩,⟨0,120⟩,⟨-20,120⟩,⟨-20,-304⟩]⟩

/-- Closest pair for scenario X: `(0,0)` (vertex 1 of `pA`) against
`(0,100)` (vertex 0 of `pB`), distance `100`. -/
def fscX : Fsc := fun _ _ => ((⟨0,0⟩,1),(⟨0,100⟩,0))

/-- Parallel-offset oracle for scenario X at offset `10`: from `(0,0)` the
boundary of `pA` reaches offset 10 at `(-10, 0)` (on edge 1→2); from
`(0,100)` the boundary of `pB` reaches offset 10 at `(-10, -102)` (the
midpoint of edge 3→0); the backward walks find nothing. -/
def gnpiX : Gnpi := fun start _ _ forward =>
  if forward then
    (if start.p = ⟨0,0⟩ then some (⟨-10,0⟩, 1)
     else if start.p = ⟨0,100⟩ then some (⟨-10,-102⟩, 3)
     else none)
  else none

/-- The bridge `getBridge` builds in scenario X (swap applied). -/
def bridgeX : PolygonBridge :=
  ⟨⟨⟨⟨-10,0⟩,1,pA⟩, ⟨⟨-10,-102⟩,3,pB⟩⟩, ⟨⟨⟨0,0⟩,1,pA⟩, ⟨⟨0,100⟩,0,pB⟩⟩⟩

/-- Scenario P: a first connection `(0,0) → (-100,0)` between two triangles. -/
def pa3 : PolyRef := ⟨3, [⟨0,0⟩, ⟨-95,10⟩, ⟨0,30⟩]⟩

def pb3 : PolyRef := ⟨4, [⟨-100,0⟩, ⟨-90,10⟩, ⟨-102,10⟩]⟩

def firstP : PolygonConnection := ⟨⟨⟨0,0⟩,0,pa3⟩, ⟨⟨-100,0⟩,0,pb3⟩⟩

/-- Parallel-offset oracle for scenario P at offset `10`: one `from`
candidate `(-95, 10)` on `pa3`, two `to` candidates `(-90, 10)` and
`(-102, 10)` on `pb3` (all at perpendicular offset 10 from the line
`y = 0` through the first connection). -/
def gnpiP : Gnpi := fun start _ _ forward =>
  if start.p = ⟨0,0⟩ then (if forward then some (⟨-95,10⟩, 1) else none)
  else if start.p = ⟨-100,0⟩ then (if forward then some (⟨-90,10⟩, 1) else some (⟨-102,10⟩, 2))
  else none

/-- Scenario C: between the two squares, the boundary-walk oracle finds
no candidate at full width (400) from the first connection, candidates at
half width (200) on both sides, and full-width candidates when anchored at
the half-width points `(1000, 700)` / `(1100, 700)`. -/
def gnpiC : Gnpi := fun start _ dist forward =>
  if dist = 400 then
    (if start.p = ⟨1000,700⟩ then (if forward then some (⟨1000,300⟩,1) else none)
     else if start.p = ⟨1100,700⟩ then (if forward then some (⟨1100,300⟩,3) else none)
     else none)
  else if dist = 200 then
    (if start.p = ⟨1000,500⟩ then (if forward then some (⟨1000,700⟩,1) else some (⟨1000,300⟩,1))
     else if start.p = ⟨1100,500⟩ then (if forward then some (⟨1100,700⟩,3) else some (⟨1100,300⟩,3))
     else none)
  else none

/-- The bridge the claim's wording of the recovery step would produce in
scenario C. -/
def bridgeC : PolygonBridge :=
  ⟨⟨⟨⟨1000,700⟩,1,sq1⟩, ⟨⟨1100,700⟩,3,sq2⟩⟩, ⟨⟨⟨1000,300⟩,1,sq1⟩, ⟨⟨1100,300⟩,3,sq2⟩⟩⟩

/-- A bridge between the two squares whose four endpoints are interior to
their boundary segments (the shape `getBridge` produces from `gnpiW`). -/
def bridgeGood : PolygonBridge :=
  ⟨⟨⟨⟨1000,900⟩,1,sq1⟩, ⟨⟨1100,900⟩,3,sq2⟩⟩, ⟨⟨⟨1000,500⟩,1,sq1⟩, ⟨⟨1100,500⟩,3,sq2⟩⟩⟩

/-- A bridge between the two squares whose `b` connection runs corner to
corner: `b.to` is the location `(1100, 0)` represented as lying on segment
3 of `sq2` (whose far endpoint it is). -/
def bridgeBad : PolygonBridge :=
  ⟨⟨⟨⟨1000,400⟩,1,sq1⟩, ⟨⟨1100,400⟩,3,sq2⟩⟩, ⟨⟨⟨1000,0⟩,0,sq1⟩, ⟨⟨1100,0⟩,3,sq2⟩⟩⟩

/-! ### Closed-contour integrity predicates -/

/-- Executable check that no two consecutive points of a list coincide. -/
def chainNeB : List Point → Bool
  | [] => true
  | [_] => true
  | p :: q :: rest => decide (p ≠ q) && chainNeB (q :: rest)

theorem chainNeB_iff (l : List Point) :
    chainNeB l = true ↔ List.Chain' (fun p q => p ≠ q) l := by
  induction l with
  | nil => simp [chainNeB]
  | cons p rest ih =>
    cases rest with
    | nil => simp [chainNeB]
    | cons q rest2 =>
      rw [List.chain'_cons]
      rw [show chainNeB (p :: q :: rest2) = (decide (p ≠ q) && chainNeB (q :: rest2)) from rfl]
      rw [Bool.and_eq_true, decide_eq_true_eq, ih]

/-- No two consecutive points of the list coincide, including the
wrap-around pair (the list read as a closed contour). -/
def closedNoConsecDup (l : List Point) : Prop :=
  List.Chain' (fun p q => p ≠ q) l ∧ (1 < l.length → l.head? ≠ l.getLast?)

instance (l : List Point) : Decidable (closedNoConsecDup l) :=
  decidable_of_iff (chainNeB l = true ∧ (1 < l.length → l.head? ≠ l.getLast?))
    (by rw [chainNeB_iff]; exact Iff.rfl)

/-- No two cyclically-consecutive vertices of a polygon coincide. -/
def noCyclicConsecDup (pts : List Point) : Prop :=
  ∀ k, k < pts.length → pts.getD k pt0 ≠ pts.getD ((k + 1) % pts.length) pt0

instance (pts : List Point) : Decidable (noCyclicConsecDup pts) :=
  inferInstanceAs (Decidable (∀ k, k < pts.length →
    pts.getD k pt0 ≠ pts.getD ((k + 1) % pts.length) pt0))

-- sanity checks of the embedding on the concrete scenarios
example : getConnection fscW 400 sq1 [sq2] = some connW := by decide
example : getBridge gnpiW fscW 400 1000 sq1 [sq2] = some bridgeW := by decide
example : connectFull gnpiW fscW 400 1000 [sq1] = ([sq1], []) := by
  have h : getBridge gnpiW fscW 400 1000 sq1 [] = none := by decide
  simp [connectFull, connect, connectLoop, h]

/-! ### Inversion of `getBridge`

Any bridge `getBridge` returns consists of the connection obtained from
`getConnection` (which passed the `max_dist²` check) and the full-width
second connection, in one of the two orders decided by the orientation
test.  In particular the half-width recovery branch never yields a bridge:
it re-runs `getSecondConnection` on the unchanged arguments
`(*connection, line_width)`, and the search is a pure function. -/

theorem getBridge_inversion (gnpi : Gnpi) (fsc : Fsc) (line_width max_dist : Int)
    (from_poly : PolyRef) (to_polygons : List PolyRef) (br : PolygonBridge)
    (h : getBridge gnpi fsc line_width max_dist from_poly to_polygons = some br) :
    ∃ conn s, getConnection fsc line_width from_poly to_polygons = some conn ∧
      ¬ conn.getDistance2 > max_dist * max_dist ∧
      getSecondConnection gnpi max_dist conn line_width = some s ∧
      ((br = ⟨conn, s⟩ ∧
          ¬ dot (turn90CCW (conn.«to».p - conn.«from».p)) (s.«from».p - conn.«from».p) > 0) ∨
       (br = ⟨s, conn⟩ ∧
          dot (turn90CCW (conn.«to».p - conn.«from».p)) (s.«from».p - conn.«from».p) > 0)) := by
  unfold getBridge at h
  cases hc : getConnection fsc line_width from_poly to_polygons with
  | none => rw [hc] at h; exact absurd h (by simp)
  | some conn =>
    rw [hc] at h
    dsimp only at h
    by_cases hd : conn.getDistance2 > max_dist * max_dist
    · rw [if_pos hd] at h; exact absurd h (by simp)
    · rw [if_neg hd] at h
      refine ⟨conn, ?_⟩
      cases hs : getSecondConnection gnpi max_dist conn line_width with
      | some s =>
        rw [hs] at h
        dsimp only at h
        by_cases hdot : dot (turn90CCW (conn.«to».p - conn.«from».p)) (s.«from».p - conn.«from».p) > 0
        · rw [if_pos hdot] at h
          exact ⟨s, rfl, hd, rfl, Or.inr ⟨(Option.some_injective _ h).symm, hdot⟩⟩
        · rw [if_neg hdot] at h
          exact ⟨s, rfl, hd, rfl, Or.inl ⟨(Option.some_injective _ h).symm, hdot⟩⟩
      | none =>
        cases hs2 : getSecondConnection gnpi max_dist conn (line_width / 2) with
        | some s2 => rw [hs, hs2] at h; simp at h
        | none => rw [hs, hs2] at h; simp at h

/-- C1 (counterexample): in scenario X the orientation swap makes `a` the
second connection, whose squared endpoint distance `10404` exceeds
`max_dist² = 10000`; the bridge is nevertheless emitted. -/
theorem getBridge_first_connection_over_max_dist_cex :
    getBridge gnpiX fscX 10 100 pA [pB] = some bridgeX ∧
      bridgeX.a.getDistance2 > 100 * 100 := by
  decide

/-- C1 (amended): `getBridge` aborts with no bridge whenever the initial
connection from `getConnection` is absent or its squared distance exceeds
`max_dist²`; and every bridge it returns contains the initial connection —
as `a` when no orientation swap occurred, as `b` otherwise — so at least
one of the two connections has squared distance at most `max_dist²`.  (The
other connection is bounded only by the second-connection acceptance
check, so `a` itself can exceed `max_dist²` after a swap.) -/
theorem getBridge_admissibility_amended (gnpi : Gnpi) (fsc : Fsc)
    (line_width max_dist : Int) (from_poly : PolyRef) (to_polygons : List PolyRef) :
    (getConnection fsc line_width from_poly to_polygons = none →
      getBridge gnpi fsc line_width max_dist from_poly to_polygons = none) ∧
    (∀ conn, getConnection fsc line_width from_poly to_polygons = some conn →
      conn.getDistance2 > max_dist * max_dist →
      getBridge gnpi fsc line_width max_dist from_poly to_polygons = none) ∧
    (∀ br, getBridge gnpi fsc line_width max_dist from_poly to_polygons = some br →
      br.a.getDistance2 ≤ max_dist * max_dist ∨ br.b.getDistance2 ≤ max_dist * max_dist) := by
  refine ⟨?_, ?_, ?_⟩
  · intro hc; unfold getBridge; rw [hc]
  · intro conn hc hd; unfold getBridge; rw [hc]; dsimp only; rw [if_pos hd]
  · intro br h
    obtain ⟨conn, s, _, hd, _, hor⟩ := getBridge_inversion _ _ _ _ _ _ _ h
    rcases hor with ⟨hbr, _⟩ | ⟨hbr, _⟩
    · exact Or.inl (by rw [hbr]; dsimp only; omega)
    · exact Or.inr (by rw [hbr]; dsimp only; omega)

/-- C1 (witness): the amended theorem applied to the two-squares scenario. -/
theorem getBridge_admissibility_amended_witness :
    bridgeW.a.getDistance2 ≤ 1000 * 1000 ∨ bridgeW.b.getDistance2 ≤ 1000 * 1000 :=
  (getBridge_admissibility_amended gnpiW fscW 400 1000 sq1 [sq2]).2.2 bridgeW (by decide)

/-- C4 (counterexample): in scenario C the full-width search at the first
connection fails, the half-width retry succeeds, and a full-width search
anchored at the retry's connection would succeed — the code's re-run is
anchored at the original first connection instead, so `getBridge` produces
no bridge while the claim's wording (`getBridgeRecenterSpec`) produces one. -/
theorem getBridge_recenter_wording_cex :
    getBridge gnpiC fscW 400 1000 sq1 [sq2] = none ∧
      getBridgeRecenterSpec gnpiC fscW 400 1000 sq1 [sq2] = some bridgeC := by
  decide

/-- C4 (amended): if the full-width second-connection search fails,
`getBridge` retries at `line_width / 2`; if that retry succeeds, the
full-width search is re-run anchored at the *original* first connection
with the original shift — identical arguments, so, the search being a pure
function, it fails again — and a bridge still requires both connections,
so no bridge is produced whenever the full-width search at the first
connection fails. -/
theorem getBridge_recovery_anchored_at_original (gnpi : Gnpi) (fsc : Fsc)
    (line_width max_dist : Int) (from_poly : PolyRef) (to_polygons : List PolyRef)
    (conn : PolygonConnection)
    (hc : getConnection fsc line_width from_poly to_polygons = some conn)
    (hs : getSecondConnection gnpi max_dist conn line_width = none) :
    getBridge gnpi fsc line_width max_dist from_poly to_polygons = none := by
  unfold getBridge
  rw [hc]
  dsimp only
  by_cases hd : conn.getDistance2 > max_dist * max_dist
  · rw [if_pos hd]
  · rw [if_neg hd, hs]
    cases hs2 : getSecondConnection gnpi max_dist conn (line_width / 2) with
    | some s2 => rfl
    | none => rfl

/-- C4 (witness): the amended theorem applied to scenario C. -/
theorem getBridge_recovery_anchored_at_original_witness :
    getBridge gnpiC fscW 400 1000 sq1 [sq2] = none :=
  getBridge_recovery_anchored_at_original gnpiC fscW 400 1000 sq1 [sq2] connW
    (by decide) (by decide)

/-- C5 (counterexample): in scenario X the swap fires, and the test
re-evaluated on the returned bridge's `a` is positive (`1020 > 0`):
`b.from` lies on the positive side of the rotated direction vector of the
emitted `a`. -/
theorem getBridge_orientation_cex :
    getBridge gnpiX fscX 10 100 pA [pB] = some bridgeX ∧
      dot (turn90CCW (bridgeX.a.«to».p - bridgeX.a.«from».p))
        (bridgeX.b.«from».p - bridgeX.a.«from».p) > 0 := by
  decide

/-- C5 (amended): the cross-product test holds non-positively as `getBridge`
evaluates it, i.e. on the pre-swap pair: every emitted bridge either
satisfies `dot(turn90CCW(a_vec), b.from - a.from) ≤ 0` as returned (no swap
occurred), or the two connections were swapped because the test on the
original ordering — which is the test on the returned `b` — was positive.
After a swap the test re-evaluated on the returned `a` may be positive. -/
theorem getBridge_orientation_amended (gnpi : Gnpi) (fsc : Fsc)
    (line_width max_dist : Int) (from_poly : PolyRef) (to_polygons : List PolyRef)
    (br : PolygonBridge)
    (h : getBridge gnpi fsc line_width max_dist from_poly to_polygons = some br) :
    dot (turn90CCW (br.a.«to».p - br.a.«from».p)) (br.b.«from».p - br.a.«from».p) ≤ 0 ∨
      dot (turn90CCW (br.b.«to».p - br.b.«from».p)) (br.a.«from».p - br.b.«from».p) > 0 := by
  obtain ⟨conn, s, _, _, _, hor⟩ := getBridge_inversion _ _ _ _ _ _ _ h
  rcases hor with ⟨hbr, hdot⟩ | ⟨hbr, hdot⟩
  · exact Or.inl (by rw [hbr]; dsimp only; omega)
  · exact Or.inr (by rw [hbr]; dsimp only; exact hdot)

/-- C5 (witness): the amended theorem applied to the two-squares scenario
(there the swap fires and the second disjunct holds). -/
theorem getBridge_orientation_amended_witness :
    dot (turn90CCW (bridgeW.a.«to».p - bridgeW.a.«from».p))
        (bridgeW.b.«from».p - bridgeW.a.«from».p) ≤ 0 ∨
      dot (turn90CCW (bridgeW.b.«to».p - bridgeW.b.«from».p))
        (bridgeW.a.«from».p - bridgeW.b.«from».p) > 0 :=
  getBridge_orientation_amended gnpiW fscW 400 1000 sq1 [sq2] bridgeW (by decide)

/-! ### Direction antisymmetry (`getPolygonDirection`) -/

theorem idxDistance_antisym (i j n : Nat) (hi : i < n) (hj : j < n) (hne : i ≠ j) :
    idxDistance i j n + idxDistance j i n = n ∧ 0 < idxDistance i j n := by
  unfold idxDistance
  have hn : (0 : Int) < (n : Int) := by exact_mod_cast Nat.pos_of_ne_zero (by omega)
  rcases Nat.lt_or_ge i j with hij | hij
  · have h1 : ((j : Int) - (i : Int) + (n : Int)) % (n : Int) = (j : Int) - (i : Int) := by
      have hm : ((j : Int) - (i : Int) + (n : Int)) % (n : Int) =
          ((j : Int) - (i : Int)) % (n : Int) := by
        rw [show ((j : Int) - (i : Int) + (n : Int)) = ((j : Int) - (i : Int) + (n : Int) * 1) by ring,
          Int.add_mul_emod_self_left]
      rw [hm]
      exact Int.emod_eq_of_lt (by omega) (by omega)
    have h2 : ((i : Int) - (j : Int) + (n : Int)) % (n : Int) = (i : Int) - (j : Int) + (n : Int) :=
      Int.emod_eq_of_lt (by omega) (by omega)
    rw [h1, h2]
    omega
  · have hij' : j < i := by omega
    have h1 : ((j : Int) - (i : Int) + (n : Int)) % (n : Int) = (j : Int) - (i : Int) + (n : Int) :=
      Int.emod_eq_of_lt (by omega) (by omega)
    have h2 : ((i : Int) - (j : Int) + (n : Int)) % (n : Int) = (i : Int) - (j : Int) := by
      have hm : ((i : Int) - (j : Int) + (n : Int)) % (n : Int) =
          ((i : Int) - (j : Int)) % (n : Int) := by
        rw [show ((i : Int) - (j : Int) + (n : Int)) = ((i : Int) - (j : Int) + (n : Int) * 1) by ring,
          Int.add_mul_emod_self_left]
      rw [hm]
      exact Int.emod_eq_of_lt (by omega) (by omega)
    rw [h1, h2]
    omega

/-- C6 (counterexample): on the four-vertex square, the two locations at
indices `0` and `2` are half the polygon apart; `getPolygonDirection`
returns `1` for both argument orders, not opposite signs, although the
indices differ. -/
theorem getPolygonDirection_antisym_cex :
    getPolygonDirection ⟨⟨0,0⟩,0,sq1⟩ ⟨⟨1000,1000⟩,2,sq1⟩ = 1 ∧
      getPolygonDirection ⟨⟨1000,1000⟩,2,sq1⟩ ⟨⟨0,0⟩,0,sq1⟩ = 1 ∧
      (⟨⟨0,0⟩,0,sq1⟩ : ClosestPolygonPoint).point_idx ≠
        (⟨⟨1000,1000⟩,2,sq1⟩ : ClosestPolygonPoint).point_idx := by
  decide

/-- C6 (amended): `getPolygonDirection` is a pure function of its two
arguments (determinism), and for two locations on the same polygon with
distinct in-range `point_idx` values, swapping the argument order flips the
sign — except in the half-way case, where the increasing-index vertex count
from one index to the other is exactly half the (even) vertex count: there
both orders return `1`. -/
theorem getPolygonDirection_antisym_amended (cf ct : ClosestPolygonPoint)
    (hpoly : ct.poly = cf.poly)
    (hi : cf.point_idx < cf.poly.pts.length) (hj : ct.point_idx < cf.poly.pts.length)
    (hne : cf.point_idx ≠ ct.point_idx)
    (hhalf : 2 * idxDistance cf.point_idx ct.point_idx cf.poly.pts.length ≠ cf.poly.pts.length) :
    getPolygonDirection cf ct = - getPolygonDirection ct cf := by
  unfold getPolygonDirection
  rw [if_neg hne, if_neg (Ne.symm hne), hpoly]
  obtain ⟨hsum, hpos⟩ :=
    idxDistance_antisym cf.point_idx ct.point_idx cf.poly.pts.length hi hj hne
  obtain ⟨hsum', hpos'⟩ :=
    idxDistance_antisym ct.point_idx cf.point_idx cf.poly.pts.length hj hi (Ne.symm hne)
  by_cases ha : idxDistance cf.point_idx ct.point_idx cf.poly.pts.length > cf.poly.pts.length / 2
  · rw [if_pos ha, if_neg (by omega)]
  · rw [if_neg ha, if_pos (by omega)]
    norm_num

/-- C6 (witness): indices `0` and `1` on the square (vertex distance `1`,
not half of `4`): the two orders give `1` and `-1`. -/
theorem getPolygonDirection_antisym_amended_witness :
    getPolygonDirection ⟨⟨0,0⟩,0,sq1⟩ ⟨⟨1000,0⟩,1,sq1⟩ =
      - getPolygonDirection ⟨⟨1000,0⟩,1,sq1⟩ ⟨⟨0,0⟩,0,sq1⟩ :=
  getPolygonDirection_antisym_amended ⟨⟨0,0⟩,0,sq1⟩ ⟨⟨1000,0⟩,1,sq1⟩ rfl
    (by decide) (by decide) (by decide) (by decide)

/-! ### Connect driver: worklist decrease and cardinality -/

theorem connectLoop_output_length (gb : PolyRef → List PolyRef → Option PolygonBridge) :
    ∀ (n : Nat) (to_connect ret : List PolyRef) (log : List PolygonBridge),
      to_connect.length ≤ n →
      ((connectLoop gb to_connect ret log).1).length ≤ to_connect.length + ret.length := by
  intro n
  induction n with
  | zero =>
    intro tc ret log h
    obtain rfl : tc = [] := List.length_eq_zero.mp (by omega)
    simp [connectLoop]
  | succ n ih =>
    intro tc ret log h
    cases tc with
    | nil => simp [connectLoop]
    | cons current rest =>
      simp only [connectLoop]
      cases hgb : gb current rest with
      | some bridge =>
        have hlen : (overwriteSlot rest bridge.a.«to».poly.id
            (connectPolygonsAlongBridge bridge)).length ≤ n := by
          rw [overwriteSlot_length]
          simp only [List.length_cons] at h
          omega
        have := ih (overwriteSlot rest bridge.a.«to».poly.id (connectPolygonsAlongBridge bridge))
          ret (log ++ [bridge]) hlen
        rw [overwriteSlot_length] at this
        simp only [List.length_cons]
        omega
      | none =>
        have hlen : rest.length ≤ n := by
          simp only [List.length_cons] at h
          omega
        have := ih rest (ret ++ [current]) log hlen
        simp only [List.length_append, List.length_cons, List.length_nil] at this ⊢
        omega

/-- C2: every iteration of `connect`'s main loop shrinks the worklist by
exactly one — popping `current` removes one element, and the subsequent
step either leaves the remaining worklist's length unchanged (the matched
polygon's slot is overwritten in place by the merged polygon) or, when no
bridge is found, moves `current` to the output — and consequently the
number of output polygons is at most the number of input polygons. -/
theorem connect_step_decrease_and_cardinality
    (gb : PolyRef → List PolyRef → Option PolygonBridge) :
    (∀ (current : PolyRef) (rest : List PolyRef),
      (connectStepWorklist gb current rest).length + 1 = (current :: rest).length) ∧
    (∀ input : List PolyRef, ((connect gb input).1).length ≤ input.length) := by
  constructor
  · intro current rest
    rw [connectStepWorklist_length]
    simp
  · intro input
    have h := connectLoop_output_length gb input.reverse.length input.reverse [] [] le_rfl
    simpa using h

/-- C8: a polygon for which no bridge is found is emitted unchanged —
the loop appends the popped polygon, with its vertex sequence identical,
to the output and continues — and on a singleton input the connector
returns that polygon unchanged with an empty diagnostics log (against any
`to_polygons` remainder the bridge search finds nothing for the sole
polygon because the candidate worklist is empty). -/
theorem connect_emits_unbridged_unchanged :
    (∀ (gb : PolyRef → List PolyRef → Option PolygonBridge) current rest ret log,
      gb current rest = none →
      connectLoop gb (current :: rest) ret log = connectLoop gb rest (ret ++ [current]) log) ∧
    (∀ (gnpi : Gnpi) (fsc : Fsc) (line_width max_dist : Int) (p : PolyRef),
      connectFull gnpi fsc line_width max_dist [p] = ([p], [])) := by
  constructor
  · intro gb current rest ret log h
    rw [connectLoop, h]
  · intro gnpi fsc lw md p
    have hconn : getConnection fsc lw p [] = none := by
      simp [getConnection, getConnectionLoop]
    have hgb : getBridge gnpi fsc lw md p [] = none := by
      simp [getBridge, hconn]
    simp [connectFull, connect, connectLoop, hgb]

/-- C8 (witness): the first part applied to a concrete no-bridge search and
the singleton worklist `[sq1]`. -/
theorem connect_emits_unbridged_unchanged_witness :
    connectLoop (fun _ _ => none) [sq1] [] [] =
      connectLoop (fun _ _ => none) [] ([] ++ [sq1]) [] :=
  connect_emits_unbridged_unchanged.1 (fun _ _ => none) sq1 [] [] [] rfl

/-! ### `getConnection` guarantees -/

theorem getConnectionLoop_all_self (fsc : Fsc) (line_width : Int) (fp : PolyRef) :
    ∀ (tps : List PolyRef) (from_loc : ClosestPolygonPoint) (best : PolygonConnection),
      (∀ q ∈ tps, q.id = fp.id) →
      getConnectionLoop fsc line_width fp tps from_loc best coord_t_max = none := by
  intro tps
  induction tps with
  | nil => intro from_loc best _; simp [getConnectionLoop]
  | cons q rest ih =>
    intro from_loc best hall
    simp only [getConnectionLoop]
    rw [if_pos (hall q (by simp))]
    exact ih from_loc best (fun r hr => hall r (by simp [hr]))

theorem getConnectionLoop_poly (fsc : Fsc) (line_width : Int) (fp : PolyRef)
    (tps0 : List PolyRef) :
    ∀ (tps : List PolyRef) (from_loc : ClosestPolygonPoint) (best : PolygonConnection)
      (best_d2 : Int) (c : PolygonConnection),
      (∀ q, q ∈ tps → q ∈ tps0) →
      from_loc.poly = fp →
      (best_d2 ≠ coord_t_max → best.«from».poly = fp ∧ ∃ q ∈ tps0, best.«to».poly = q) →
      getConnectionLoop fsc line_width fp tps from_loc best best_d2 = some c →
      c.«from».poly = fp ∧ ∃ q ∈ tps0, c.«to».poly = q := by
  intro tps
  induction tps with
  | nil =>
    intro from_loc best best_d2 c _ _ hinv h
    simp only [getConnectionLoop] at h
    by_cases hd : best_d2 = coord_t_max
    · rw [if_pos hd] at h; cases h
    · rw [if_neg hd] at h
      obtain rfl : best = c := Option.some_injective _ h
      exact hinv hd
  | cons q rest ih =>
    intro from_loc best best_d2 c hsub hfl hinv h
    simp only [getConnectionLoop] at h
    by_cases hq : q.id = fp.id
    · rw [if_pos hq] at h
      exact ih from_loc best best_d2 c (fun r hr => hsub r (List.mem_cons_of_mem _ hr)) hfl hinv h
    · rw [if_neg hq] at h
      rcases hfsc : fsc from_loc ⟨pt0, 0, q⟩ with ⟨⟨p1, i1⟩, ⟨p2, i2⟩⟩
      rw [hfsc] at h
      dsimp only at h
      by_cases hlt : vSize2 (p2 - p1) < best_d2
      · rw [if_pos hlt] at h
        by_cases hearly : vSize2 (p2 - p1) < (line_width + 10) * (line_width + 10)
        · rw [if_pos hearly] at h
          obtain rfl : (⟨⟨p1, i1, from_loc.poly⟩, ⟨p2, i2, q⟩⟩ : PolygonConnection) = c :=
            Option.some_injective _ h
          exact ⟨hfl, q, hsub q (List.mem_cons_self _ _), rfl⟩
        · rw [if_neg hearly] at h
          refine ih ⟨p1, i1, from_loc.poly⟩ _ _ c
            (fun r hr => hsub r (List.mem_cons_of_mem _ hr)) hfl ?_ h
          intro _
          exact ⟨hfl, q, hsub q (List.mem_cons_self _ _), rfl⟩
      · rw [if_neg hlt] at h
        exact ih ⟨p1, i1, from_loc.poly⟩ best best_d2 c
          (fun r hr => hsub r (List.mem_cons_of_mem _ hr)) hfl hinv h

/-- C9: `getConnection` returns no connection when `to_polygons` is empty,
and likewise when every candidate is `from_poly` itself (identified, as in
the C++, by the polygon's underlying storage), since then no candidate
improves on the numerically infinite initial best distance; and whenever it
returns a connection, the connection's `from` location references exactly
`from_poly` and its `to` location references some element of
`to_polygons`. -/
theorem getConnection_guarantees (fsc : Fsc) (line_width : Int) (fp : PolyRef)
    (tps : List PolyRef) :
    ((tps = [] ∨ ∀ q ∈ tps, q.id = fp.id) → getConnection fsc line_width fp tps = none) ∧
    (∀ c, getConnection fsc line_width fp tps = some c →
      c.«from».poly = fp ∧ ∃ q ∈ tps, c.«to».poly = q) := by
  constructor
  · rintro (rfl | hall)
    · simp [getConnection, getConnectionLoop]
    · exact getConnectionLoop_all_self fsc line_width fp tps _ _ hall
  · intro c h
    exact getConnectionLoop_poly fsc line_width fp tps tps _ _ _ c (fun q hq => hq) rfl
      (fun hd => absurd rfl hd) h

/-- C9 (witness): the guarantees applied to the empty candidate list and to
the concrete two-squares run. -/
theorem getConnection_guarantees_witness :
    getConnection fscW 400 sq1 [] = none ∧
      (connW.«from».poly = sq1 ∧ ∃ q ∈ [sq2], connW.«to».poly = q) :=
  ⟨(getConnection_guarantees fscW 400 sq1 []).1 (Or.inl rfl),
   (getConnection_guarantees fscW 400 sq1 [sq2]).2 connW (by decide)⟩

/-! ### Selection properties of `getSecondConnection` -/

theorem getNextParallelIntersection_poly (gnpi : Gnpi) (start : ClosestPolygonPoint)
    (line_to : Point) (dist : Int) (fwd : Bool) (cpp : ClosestPolygonPoint)
    (h : getNextParallelIntersection gnpi start line_to dist fwd = some cpp) :
    cpp.poly = start.poly := by
  unfold getNextParallelIntersection at h
  cases hg : gnpi start line_to dist fwd with
  | none => rw [hg] at h; cases h
  | some r =>
    rw [hg] at h
    obtain rfl : (⟨r.1, r.2, start.poly⟩ : ClosestPolygonPoint) = cpp :=
      Option.some_injective _ h
    rfl

theorem considerCombo_le (first : PolygonConnection) (shift : Point)
    (b : PolygonConnection × Int) (f : ClosestPolygonPoint)
    (to_opt : Option ClosestPolygonPoint) :
    (considerCombo first shift b f to_opt).2 ≤ b.2 := by
  unfold considerCombo
  cases to_opt with
  | none => exact le_refl _
  | some t =>
    dsimp only
    by_cases hproj : dot (t.p - first.«to».p) shift * dot (f.p - first.«to».p) shift ≤ 0
    · rw [if_pos (by rw [mul_comm] at hproj; exact hproj)]
    · by_cases hproj' : dot (f.p - first.«to».p) shift * dot (t.p - first.«to».p) shift ≤ 0
      · rw [if_pos hproj']
      · rw [if_neg hproj']
        by_cases hlt : vSize2 (f.p - t.p) + vSize2 (f.p - first.«from».p) +
            vSize (t.p - first.«to».p) < b.2
        · rw [if_pos hlt]; exact le_of_lt hlt
        · rw [if_neg hlt]

theorem considerCombo_cases (first : PolygonConnection) (b : PolygonConnection × Int)
    (f : ClosestPolygonPoint) (to_opt : Option ClosestPolygonPoint) :
    considerCombo first (turn90CCW (first.«from».p - first.«to».p)) b f to_opt = b ∨
    ∃ t, to_opt = some t ∧
      considerCombo first (turn90CCW (first.«from».p - first.«to».p)) b f to_opt =
        (⟨f, t⟩, totalDistance2 first f t) ∧
      survivesSideTest first f t ∧ totalDistance2 first f t < b.2 := by
  unfold considerCombo
  cases to_opt with
  | none => exact Or.inl rfl
  | some t =>
    dsimp only
    by_cases hproj : dot (f.p - first.«to».p) (turn90CCW (first.«from».p - first.«to».p)) *
        dot (t.p - first.«to».p) (turn90CCW (first.«from».p - first.«to».p)) ≤ 0
    · rw [if_pos hproj]; exact Or.inl rfl
    · rw [if_neg hproj]
      by_cases hlt : vSize2 (f.p - t.p) + vSize2 (f.p - first.«from».p) +
          vSize (t.p - first.«to».p) < b.2
      · rw [if_pos hlt]
        exact Or.inr ⟨t, rfl, rfl, not_le.mp hproj, hlt⟩
      · rw [if_neg hlt]; exact Or.inl rfl

theorem considerCombo_beats (first : PolygonConnection) (b : PolygonConnection × Int)
    (f t : ClosestPolygonPoint) (hsurv : survivesSideTest first f t) :
    (considerCombo first (turn90CCW (first.«from».p - first.«to».p)) b f (some t)).2 ≤
      totalDistance2 first f t := by
  unfold considerCombo
  dsimp only
  rw [if_neg (not_le.mpr hsurv)]
  by_cases hlt : vSize2 (f.p - t.p) + vSize2 (f.p - first.«from».p) +
      vSize (t.p - first.«to».p) < b.2
  · rw [if_pos hlt]; exact le_refl _
  · rw [if_neg hlt]
    unfold totalDistance2
    omega

theorem considerCombo_score_shape (first : PolygonConnection) (b : PolygonConnection × Int)
    (f : ClosestPolygonPoint) (to_opt : Option ClosestPolygonPoint)
    (hb : b.2 = coord_t_max ∨ b.2 = totalDistance2 first b.1.«from» b.1.«to») :
    (considerCombo first (turn90CCW (first.«from».p - first.«to».p)) b f to_opt).2 = coord_t_max ∨
      (considerCombo first (turn90CCW (first.«from».p - first.«to».p)) b f to_opt).2 =
        totalDistance2 first
          (considerCombo first (turn90CCW (first.«from».p - first.«to».p)) b f to_opt).1.«from»
          (considerCombo first (turn90CCW (first.«from».p - first.«to».p)) b f to_opt).1.«to» := by
  rcases considerCombo_cases first b f to_opt with hcc | ⟨t, _, hcc, _, _⟩
  · rw [hcc]; exact hb
  · rw [hcc]; exact Or.inr rfl

theorem comboRow_le (first : PolygonConnection) (shift : Point)
    (b : PolygonConnection × Int) (from_opt to_a to_b : Option ClosestPolygonPoint) :
    (comboRow first shift b from_opt to_a to_b).2 ≤ b.2 := by
  unfold comboRow
  cases from_opt with
  | none => exact le_refl _
  | some f =>
    dsimp only
    by_cases hbrk : innerBreak first shift f to_a to_b = true
    · rw [if_pos hbrk]; exact considerCombo_le _ _ _ _ _
    · rw [if_neg hbrk]
      exact le_trans (considerCombo_le _ _ _ _ _) (considerCombo_le _ _ _ _ _)

theorem comboRow_beats (first : PolygonConnection) (b : PolygonConnection × Int)
    (from_opt to_a to_b : Option ClosestPolygonPoint) (f t : ClosestPolygonPoint)
    (hf : from_opt = some f) (ht : to_a = some t ∨ to_b = some t)
    (hsurv : survivesSideTest first f t) :
    (comboRow first (turn90CCW (first.«from».p - first.«to».p)) b from_opt to_a to_b).2 ≤
      totalDistance2 first f t := by
  subst hf
  unfold comboRow
  dsimp only
  by_cases hbrk : innerBreak first (turn90CCW (first.«from».p - first.«to».p)) f to_a to_b = true
  · rw [if_pos hbrk]
    rcases ht with hta | htb
    · subst hta; exact considerCombo_beats first b f t hsurv
    · -- the break fired, so to_a = to_b = some t: the skipped combination is a duplicate
      cases hta : to_a with
      | none => rw [hta] at hbrk; simp [innerBreak] at hbrk
      | some t' =>
        rw [hta] at hbrk
        simp only [innerBreak, Bool.and_eq_true, decide_eq_true_eq] at hbrk
        have ht' : t' = t := Option.some_injective _ (hbrk.2.trans htb)
        rw [ht']
        exact considerCombo_beats first b f t hsurv
  · rw [if_neg hbrk]
    rcases ht with hta | htb
    · subst hta
      exact le_trans (considerCombo_le _ _ _ _ _) (considerCombo_beats first b f t hsurv)
    · subst htb
      exact considerCombo_beats first _ f t hsurv

theorem comboRow_score_shape (first : PolygonConnection) (b : PolygonConnection × Int)
    (from_opt to_a to_b : Option ClosestPolygonPoint)
    (hb : b.2 = coord_t_max ∨ b.2 = totalDistance2 first b.1.«from» b.1.«to») :
    (comboRow first (turn90CCW (first.«from».p - first.«to».p)) b from_opt to_a to_b).2 =
        coord_t_max ∨
      (comboRow first (turn90CCW (first.«from».p - first.«to».p)) b from_opt to_a to_b).2 =
        totalDistance2 first
          (comboRow first (turn90CCW (first.«from».p - first.«to».p)) b from_opt to_a to_b).1.«from»
          (comboRow first (turn90CCW (first.«from».p - first.«to».p)) b from_opt to_a to_b).1.«to» := by
  unfold comboRow
  cases from_opt with
  | none => exact hb
  | some f =>
    dsimp only
    by_cases hbrk : innerBreak first (turn90CCW (first.«from».p - first.«to».p)) f to_a to_b = true
    · rw [if_pos hbrk]
      exact considerCombo_score_shape first b f to_a hb
    · rw [if_neg hbrk]
      exact considerCombo_score_shape first _ f to_b (considerCombo_score_shape first b f to_a hb)

theorem comboRow_inv (first : PolygonConnection) (b : PolygonConnection × Int)
    (from_opt to_a to_b : Option ClosestPolygonPoint) (Q : PolygonConnection → Prop)
    (hb : b.2 ≠ coord_t_max → Q b.1)
    (hcands : ∀ f t, from_opt = some f → (to_a = some t ∨ to_b = some t) → Q ⟨f, t⟩) :
    (comboRow first (turn90CCW (first.«from».p - first.«to».p)) b from_opt to_a to_b).2 ≠
        coord_t_max →
      Q (comboRow first (turn90CCW (first.«from».p - first.«to».p)) b from_opt to_a to_b).1 := by
  unfold comboRow
  cases from_opt with
  | none => exact hb
  | some f =>
    dsimp only
    have step : ∀ (b' : PolygonConnection × Int) (to_opt : Option ClosestPolygonPoint),
        (b'.2 ≠ coord_t_max → Q b'.1) →
        (∀ t, to_opt = some t → Q ⟨f, t⟩) →
        (considerCombo first (turn90CCW (first.«from».p - first.«to».p)) b' f to_opt).2 ≠
            coord_t_max →
          Q (considerCombo first (turn90CCW (first.«from».p - first.«to».p)) b' f to_opt).1 := by
      intro b' to_opt hb' hts
      rcases considerCombo_cases first b' f to_opt with hcc | ⟨t, hsome, hcc, _, _⟩
      · rw [hcc]; exact hb'
      · rw [hcc]; intro _; exact hts t hsome
    by_cases hbrk : innerBreak first (turn90CCW (first.«from».p - first.«to».p)) f to_a to_b = true
    · rw [if_pos hbrk]
      exact step b to_a hb (fun t hsome => hcands f t rfl (Or.inl hsome))
    · rw [if_neg hbrk]
      exact step _ to_b (step b to_a hb (fun t hsome => hcands f t rfl (Or.inl hsome)))
        (fun t hsome => hcands f t rfl (Or.inr hsome))

theorem secondConnectionBest_beats (first : PolygonConnection)
    (from_a from_b to_a to_b : Option ClosestPolygonPoint) (f t : ClosestPolygonPoint)
    (hf : from_a = some f ∨ from_b = some f) (ht : to_a = some t ∨ to_b = some t)
    (hsurv : survivesSideTest first f t) :
    (secondConnectionBest first from_a from_b to_a to_b).2 ≤ totalDistance2 first f t := by
  unfold secondConnectionBest
  dsimp only
  by_cases heq : from_a = from_b
  · rw [if_pos heq]
    rcases hf with hfa | hfb
    · exact comboRow_beats first _ from_a to_a to_b f t hfa ht hsurv
    · exact comboRow_beats first _ from_a to_a to_b f t (heq.trans hfb) ht hsurv
  · rw [if_neg heq]
    rcases hf with hfa | hfb
    · exact le_trans (comboRow_le _ _ _ _ _ _)
        (comboRow_beats first _ from_a to_a to_b f t hfa ht hsurv)
    · exact comboRow_beats first _ from_b to_a to_b f t hfb ht hsurv

theorem secondConnectionBest_score_shape (first : PolygonConnection)
    (from_a from_b to_a to_b : Option ClosestPolygonPoint) :
    (secondConnectionBest first from_a from_b to_a to_b).2 = coord_t_max ∨
      (secondConnectionBest first from_a from_b to_a to_b).2 =
        totalDistance2 first (secondConnectionBest first from_a from_b to_a to_b).1.«from»
          (secondConnectionBest first from_a from_b to_a to_b).1.«to» := by
  unfold secondConnectionBest
  dsimp only
  by_cases heq : from_a = from_b
  · rw [if_pos heq]
    exact comboRow_score_shape first _ from_a to_a to_b (Or.inl rfl)
  · rw [if_neg heq]
    exact comboRow_score_shape first _ from_b to_a to_b
      (comboRow_score_shape first _ from_a to_a to_b (Or.inl rfl))

theorem secondConnectionBest_inv (first : PolygonConnection)
    (from_a from_b to_a to_b : Option ClosestPolygonPoint) (Q : PolygonConnection → Prop)
    (hcands : ∀ f t, (from_a = some f ∨ from_b = some f) →
      (to_a = some t ∨ to_b = some t) → Q ⟨f, t⟩) :
    (secondConnectionBest first from_a from_b to_a to_b).2 ≠ coord_t_max →
      Q (secondConnectionBest first from_a from_b to_a to_b).1 := by
  unfold secondConnectionBest
  dsimp only
  by_cases heq : from_a = from_b
  · rw [if_pos heq]
    exact comboRow_inv first _ from_a to_a to_b Q (fun hd => absurd rfl hd)
      (fun f t hfa => hcands f t (Or.inl hfa))
  · rw [if_neg heq]
    exact comboRow_inv first _ from_b to_a to_b Q
      (comboRow_inv first _ from_a to_a to_b Q (fun hd => absurd rfl hd)
        (fun f t hfa => hcands f t (Or.inl hfa)))
      (fun f t hfb => hcands f t (Or.inr hfb))

theorem getSecondConnection_inversion (gnpi : Gnpi) (max_dist : Int)
    (first : PolygonConnection) (shift_distance : Int) (c : PolygonConnection)
    (h : getSecondConnection gnpi max_dist first shift_distance = some c) :
    ∃ from_a to_a,
      getNextParallelIntersection gnpi first.«from» first.«to».p shift_distance true =
          some from_a ∧
      getNextParallelIntersection gnpi first.«to» first.«from».p shift_distance true =
          some to_a ∧
      c = (secondConnectionBest first (some from_a)
            (getNextParallelIntersection gnpi first.«from» first.«to».p shift_distance false)
            (some to_a)
            (getNextParallelIntersection gnpi first.«to» first.«from».p shift_distance false)).1 ∧
      ¬ (secondConnectionBest first (some from_a)
            (getNextParallelIntersection gnpi first.«from» first.«to».p shift_distance false)
            (some to_a)
            (getNextParallelIntersection gnpi first.«to» first.«from».p shift_distance false)).2 >
          max_dist * max_dist + 2 * (shift_distance + 10) * (shift_distance + 10) := by
  unfold getSecondConnection at h
  dsimp only at h
  simp only [Bool.not_true] at h
  cases hfa : getNextParallelIntersection gnpi first.«from» first.«to».p shift_distance true with
  | none => rw [hfa] at h; cases h
  | some from_a =>
    rw [hfa] at h
    dsimp only at h
    cases hta : getNextParallelIntersection gnpi first.«to» first.«from».p shift_distance true with
    | none => rw [hta] at h; cases h
    | some to_a =>
      rw [hta] at h
      dsimp only at h
      by_cases hgt : (secondConnectionBest first (some from_a)
          (getNextParallelIntersection gnpi first.«from» first.«to».p shift_distance false)
          (some to_a)
          (getNextParallelIntersection gnpi first.«to» first.«from».p shift_distance false)).2 >
          max_dist * max_dist + 2 * (shift_distance + 10) * (shift_distance + 10)
      · rw [if_pos hgt] at h; cases h
      · rw [if_neg hgt] at h
        exact ⟨from_a, to_a, rfl, rfl, (Option.some_injective _ h).symm, hgt⟩

theorem getSecondConnection_polys (gnpi : Gnpi) (max_dist : Int)
    (first : PolygonConnection) (shift_distance : Int) (c : PolygonConnection)
    (hbound : max_dist * max_dist + 2 * (shift_distance + 10) * (shift_distance + 10) <
      coord_t_max)
    (h : getSecondConnection gnpi max_dist first shift_distance = some c) :
    c.«from».poly = first.«from».poly ∧ c.«to».poly = first.«to».poly := by
  obtain ⟨fa, ta, hfa, hta, hc, hle⟩ := getSecondConnection_inversion gnpi max_dist first
    shift_distance c h
  have hne : (secondConnectionBest first (some fa)
      (getNextParallelIntersection gnpi first.«from» first.«to».p shift_distance false)
      (some ta)
      (getNextParallelIntersection gnpi first.«to» first.«from».p shift_distance false)).2 ≠
      coord_t_max := by omega
  rw [hc]
  refine secondConnectionBest_inv first (some fa) _ (some ta) _
    (fun conn => conn.«from».poly = first.«from».poly ∧ conn.«to».poly = first.«to».poly)
    ?_ hne
  intro f t hfor htor
  constructor
  · rcases hfor with hf | hf
    · have hfeq : fa = f := Option.some_injective _ hf
      rw [← hfeq]
      exact getNextParallelIntersection_poly gnpi first.«from» first.«to».p shift_distance
        true fa hfa
    · exact getNextParallelIntersection_poly gnpi first.«from» first.«to».p shift_distance
        false f hf
  · rcases htor with ht | ht
    · have hteq : ta = t := Option.some_injective _ ht
      rw [← hteq]
      exact getNextParallelIntersection_poly gnpi first.«to» first.«from».p shift_distance
        true ta hta
    · exact getNextParallelIntersection_poly gnpi first.«to» first.«from».p shift_distance
        false t ht

/-- C10: every bridge returned by `getBridge` joins the same ordered pair
of polygons through both of its connections: `a.from.poly = b.from.poly`
and `a.to.poly = b.to.poly` (the second connection's candidates are found
by walking the first connection's own endpoint polygons, and the
normalization swap exchanges the connections whole), so the same-polygon
assertions in `addPolygonSegment` / `getPolygonDirection` hold for both
splice calls of `connectPolygonsAlongBridge`.  The acceptance bound is
assumed below `coord_t_max`, i.e. the `max_dist² + 2(line_width+10)²`
arithmetic does not overflow the 64-bit `coord_t` (in the C++ the
contrary case is signed-overflow undefined behaviour). -/
theorem getBridge_connections_same_polygons (gnpi : Gnpi) (fsc : Fsc)
    (line_width max_dist : Int) (from_poly : PolyRef) (to_polygons : List PolyRef)
    (br : PolygonBridge)
    (hbound : max_dist * max_dist + 2 * (line_width + 10) * (line_width + 10) < coord_t_max)
    (h : getBridge gnpi fsc line_width max_dist from_poly to_polygons = some br) :
    br.a.«from».poly = br.b.«from».poly ∧ br.a.«to».poly = br.b.«to».poly := by
  obtain ⟨conn, s, _, _, hs, hor⟩ := getBridge_inversion _ _ _ _ _ _ _ h
  obtain ⟨h1, h2⟩ := getSecondConnection_polys gnpi max_dist conn line_width s hbound hs
  rcases hor with ⟨hbr, _⟩ | ⟨hbr, _⟩
  · rw [hbr]; exact ⟨h1.symm, h2.symm⟩
  · rw [hbr]; exact ⟨h1, h2⟩

/-- C10 (witness): the theorem applied to the two-squares scenario. -/
theorem getBridge_connections_same_polygons_witness :
    bridgeW.a.«from».poly = bridgeW.b.«from».poly ∧
      bridgeW.a.«to».poly = bridgeW.b.«to».poly :=
  getBridge_connections_same_polygons gnpiW fscW 400 1000 sq1 [sq2] bridgeW
    (by decide) (by decide)

/-- C3 (counterexample): in scenario P, `getSecondConnection` selects the
combination `(F, T1) = ((-95,10), (-90,10))`, although the combination
`(F, T2) = ((-95,10), (-102,10))` also survives the side-rejection test and
has a strictly smaller sum of the three plain distances (`112 < 114`): the
source's score sums two *squared* distances and one plain distance
(`vSize2 + vSize2 + vSize`), which ranks the combinations differently
(`9164 < 9184`). -/
theorem getSecondConnection_plain_score_cex :
    getSecondConnection gnpiP 100 firstP 10 =
        some ⟨⟨⟨-95,10⟩,1,pa3⟩, ⟨⟨-90,10⟩,1,pb3⟩⟩ ∧
      (⟨⟨-95,10⟩,1,pa3⟩ : ClosestPolygonPoint) ∈ fromCandidates gnpiP firstP 10 ∧
      (⟨⟨-102,10⟩,2,pb3⟩ : ClosestPolygonPoint) ∈ toCandidates gnpiP firstP 10 ∧
      survivesSideTest firstP ⟨⟨-95,10⟩,1,pa3⟩ ⟨⟨-102,10⟩,2,pb3⟩ ∧
      plainDistanceScore firstP ⟨⟨-95,10⟩,1,pa3⟩ ⟨⟨-102,10⟩,2,pb3⟩ <
        plainDistanceScore firstP ⟨⟨-95,10⟩,1,pa3⟩ ⟨⟨-90,10⟩,1,pb3⟩ := by
  decide

/-- C3 (amended): among the candidate `(from, to)` combinations that
survive the side-rejection test, `getSecondConnection` selects a
combination minimizing `total_distance2` — the sum of the *squared*
distance between the two candidate points, the *squared* distance from the
`from` candidate to the first connection's `from` point, and the
(non-squared) distance from the `to` candidate to the first connection's
`to` point (`vSize2 + vSize2 + vSize`, the literal source expression).
The acceptance bound is assumed below `coord_t_max` (no `coord_t`
overflow). -/
theorem getSecondConnection_minimizes_code_score (gnpi : Gnpi) (max_dist : Int)
    (first : PolygonConnection) (shift_distance : Int) (c : PolygonConnection)
    (hbound : max_dist * max_dist + 2 * (shift_distance + 10) * (shift_distance + 10) <
      coord_t_max)
    (h : getSecondConnection gnpi max_dist first shift_distance = some c) :
    ∀ f t, f ∈ fromCandidates gnpi first shift_distance →
      t ∈ toCandidates gnpi first shift_distance →
      survivesSideTest first f t →
      totalDistance2 first c.«from» c.«to» ≤ totalDistance2 first f t := by
  obtain ⟨fa, ta, hfa, hta, hc, hle⟩ := getSecondConnection_inversion gnpi max_dist first
    shift_distance c h
  intro f t hfmem htmem hsurv
  have hfor : some fa = some f ∨
      getNextParallelIntersection gnpi first.«from» first.«to».p shift_distance false =
        some f := by
    unfold fromCandidates at hfmem
    rw [hfa] at hfmem
    cases hfb : getNextParallelIntersection gnpi first.«from» first.«to».p shift_distance
        false with
    | none =>
      rw [hfb] at hfmem
      simp only [List.filterMap_cons, id, List.filterMap_nil] at hfmem
      simp at hfmem
      exact Or.inl (by rw [hfmem])
    | some fb =>
      rw [hfb] at hfmem
      simp only [List.filterMap_cons, id, List.filterMap_nil] at hfmem
      simp at hfmem
      rcases hfmem with rfl | rfl
      · exact Or.inl rfl
      · exact Or.inr rfl
  have htor : some ta = some t ∨
      getNextParallelIntersection gnpi first.«to» first.«from».p shift_distance false =
        some t := by
    unfold toCandidates at htmem
    rw [hta] at htmem
    cases htb : getNextParallelIntersection gnpi first.«to» first.«from».p shift_distance
        false with
    | none =>
      rw [htb] at htmem
      simp only [List.filterMap_cons, id, List.filterMap_nil] at htmem
      simp at htmem
      exact Or.inl (by rw [htmem])
    | some tb =>
      rw [htb] at htmem
      simp only [List.filterMap_cons, id, List.filterMap_nil] at htmem
      simp at htmem
      rcases htmem with rfl | rfl
      · exact Or.inl rfl
      · exact Or.inr rfl
  have hbeats := secondConnectionBest_beats first (some fa)
    (getNextParallelIntersection gnpi first.«from» first.«to».p shift_distance false)
    (some ta)
    (getNextParallelIntersection gnpi first.«to» first.«from».p shift_distance false)
    f t hfor htor hsurv
  rcases secondConnectionBest_score_shape first (some fa)
      (getNextParallelIntersection gnpi first.«from» first.«to».p shift_distance false)
      (some ta)
      (getNextParallelIntersection gnpi first.«to» first.«from».p shift_distance false) with
    hshape | hshape
  · omega
  · rw [hc, ← hshape]
    exact hbeats

/-- C3 (witness): in the two-squares scenario, the selected combination's
`total_distance2` (170400) is at most that of the other surviving
combination (the lower pair, also 170400). -/
theorem getSecondConnection_minimizes_code_score_witness :
    totalDistance2 connW bridgeW.a.«from» bridgeW.a.«to» ≤
      totalDistance2 connW ⟨⟨1000,100⟩,1,sq1⟩ ⟨⟨1100,100⟩,3,sq2⟩ :=
  getSecondConnection_minimizes_code_score gnpiW 1000 connW 400 bridgeW.a
    (by decide) (by decide) ⟨⟨1000,100⟩,1,sq1⟩ ⟨⟨1100,100⟩,3,sq2⟩
    (by decide) (by decide) (by decide)

/-! ### Closed-loop integrity of the splice -/

theorem segmentIdxAt_lt (n s : Nat) (dir : Int) (k : Nat) (hn : 0 < n) :
    segmentIdxAt n s dir k < n := by
  unfold segmentIdxAt
  by_cases hdir : dir > 0
  · rw [if_pos hdir]; exact Nat.mod_lt _ hn
  · rw [if_neg hdir]
    have h1 : (0 : Int) ≤ ((s : Int) - (k : Int) + (n : Int)) % (n : Int) :=
      Int.emod_nonneg _ (by omega)
    have h2 : ((s : Int) - (k : Int) + (n : Int)) % (n : Int) < (n : Int) :=
      Int.emod_lt_of_pos _ (by exact_mod_cast hn)
    omega

theorem segmentVerts_mem (poly : List Point) (s e : Nat) (dir : Int) (x : Point)
    (hx : x ∈ segmentVerts poly s e dir) : x ∈ poly := by
  unfold segmentVerts at hx
  by_cases hn : poly.length = 0
  · rw [if_pos hn] at hx; cases hx
  · rw [if_neg hn] at hx
    dsimp only at hx
    have hn' : 0 < poly.length := Nat.pos_of_ne_zero hn
    rcases List.mem_cons.mp hx with rfl | hx'
    · rw [List.getD_eq_getElem poly pt0 (segmentIdxAt_lt _ _ _ _ hn')]
      exact List.getElem_mem _
    · obtain ⟨nr, _, rfl⟩ := List.mem_map.mp hx'
      rw [List.getD_eq_getElem poly pt0 (segmentIdxAt_lt _ _ _ _ hn')]
      exact List.getElem_mem _

theorem segmentVerts_ne_nil (poly : List Point) (s e : Nat) (dir : Int)
    (hn : poly ≠ []) : segmentVerts poly s e dir ≠ [] := by
  have hpos : 0 < poly.length := List.length_pos.mpr hn
  unfold segmentVerts
  rw [if_neg (by omega)]
  simp

theorem chain'_of_forall_adjacent (R : Nat → Nat → Prop) (h : ∀ k, R k (k + 1)) :
    ∀ (len s : Nat), List.Chain' R (List.range' s len) := by
  intro len
  induction len with
  | zero => intro s; simp
  | succ m ih =>
    intro s
    rw [List.range'_succ, List.chain'_cons']
    refine ⟨?_, ih (s + 1)⟩
    intro y hy
    cases m with
    | zero => simp at hy
    | succ m' =>
      rw [List.range'_succ] at hy
      simp only [List.head?_cons, Option.mem_def, Option.some.injEq] at hy
      rw [← hy]
      exact h s

theorem segmentIdxAt_adjacent_pos (n s : Nat) (dir : Int) (k : Nat) (hn : 2 ≤ n)
    (hdir : dir > 0) :
    segmentIdxAt n s dir (k + 1) = (segmentIdxAt n s dir k + 1) % n := by
  unfold segmentIdxAt
  rw [if_pos hdir, if_pos hdir]
  have h1n : 1 % n = 1 := Nat.mod_eq_of_lt (by omega)
  calc (s + 1 + (k + 1)) % n = ((s + 1 + k) + 1) % n := by ring_nf
    _ = ((s + 1 + k) % n + 1 % n) % n := Nat.add_mod _ _ _
    _ = ((s + 1 + k) % n + 1) % n := by rw [h1n]

theorem segmentIdxAt_adjacent_neg (n s : Nat) (dir : Int) (k : Nat) (hn : 2 ≤ n)
    (hdir : ¬ dir > 0) :
    segmentIdxAt n s dir k = (segmentIdxAt n s dir (k + 1) + 1) % n := by
  unfold segmentIdxAt
  rw [if_neg hdir, if_neg hdir]
  have hnz : (n : Int) ≠ 0 := by omega
  set a : Int := (s : Int) - ((k : Int) + 1) + (n : Int) with hadef
  have hgoal1 : (s : Int) - ((k + 1 : Nat) : Int) + (n : Int) = a := by
    rw [hadef]; push_cast; ring
  rw [hgoal1]
  have ha : (0 : Int) ≤ a % (n : Int) := Int.emod_nonneg _ hnz
  have hstep : ((s : Int) - (k : Int) + (n : Int)) % (n : Int) = (a % n + 1) % (n : Int) := by
    have h1 : (s : Int) - (k : Int) + (n : Int) = a + 1 := by rw [hadef]; ring
    rw [h1, Int.add_emod]
    have h2 : (1 : Int) % (n : Int) = 1 := Int.emod_eq_of_lt (by omega) (by omega)
    rw [h2]
  rw [hstep]
  set r := (a % (n : Int)).toNat with hrdef
  have hr : a % (n : Int) = (r : Int) := (Int.toNat_of_nonneg ha).symm
  rw [hr]
  have hcast : ((r : Int) + 1) % (n : Int) = (((r + 1) % n : Nat) : Int) := by
    rw [Int.natCast_mod]
    push_cast
    ring
  rw [hcast, Int.toNat_natCast]

theorem segmentVerts_chain (poly : List Point) (s e : Nat) (dir : Int)
    (hd : noCyclicConsecDup poly) (hn : poly ≠ []) :
    List.Chain' (fun p q => p ≠ q) (segmentVerts poly s e dir) := by
  have hn0 : 0 < poly.length := List.length_pos.mpr hn
  rcases Nat.lt_or_ge poly.length 2 with hsmall | h2
  · -- a one-vertex polygon contradicts `noCyclicConsecDup`
    exfalso
    have hl : poly.length = 1 := by omega
    have := hd 0 (by omega)
    rw [hl] at this
    simp at this
  · unfold segmentVerts
    rw [if_neg (by omega)]
    dsimp only
    have hadj : ∀ k, poly.getD (segmentIdxAt poly.length s dir k) pt0 ≠
        poly.getD (segmentIdxAt poly.length s dir (k + 1)) pt0 := by
      intro k
      by_cases hdir : dir > 0
      · rw [segmentIdxAt_adjacent_pos poly.length s dir k h2 hdir]
        exact hd (segmentIdxAt poly.length s dir k) (segmentIdxAt_lt _ _ _ _ (by omega))
      · rw [segmentIdxAt_adjacent_neg poly.length s dir k h2 hdir]
        exact (hd (segmentIdxAt poly.length s dir (k + 1))
          (segmentIdxAt_lt _ _ _ _ (by omega))).symm
    show List.Chain' (fun p q => p ≠ q)
      (List.map (fun nr => poly.getD (segmentIdxAt poly.length s dir nr) pt0)
        (0 :: (List.range' 1 (poly.length - 1)).takeWhile
          (fun vert_nr => segmentIdxAt poly.length s dir vert_nr ≠
            (e + (if dir > 0 then 1 else 0)) % poly.length)))
    rw [List.chain'_map]
    have hfull : List.Chain'
        (fun a b => poly.getD (segmentIdxAt poly.length s dir a) pt0 ≠
          poly.getD (segmentIdxAt poly.length s dir b) pt0)
        (List.range' 0 poly.length) := by
      exact chain'_of_forall_adjacent _ hadj poly.length 0
    have hsplit : List.range' 0 poly.length = 0 :: List.range' 1 (poly.length - 1) := by
      have hlen : poly.length = (poly.length - 1) + 1 := by omega
      rw [hlen, List.range'_succ]
      norm_num
    refine List.Chain'.prefix hfull ?_
    rw [hsplit]
    exact List.cons_prefix_cons.mpr ⟨rfl, List.takeWhile_prefix _⟩

theorem segChunk_chain (startP endP : Point) (poly : List Point) (s e : Nat) (dir : Int)
    (hne : poly ≠ []) (hd : noCyclicConsecDup poly)
    (hs : startP ∉ poly) (he : endP ∉ poly) :
    List.Chain' (fun p q => p ≠ q) (startP :: (segmentVerts poly s e dir ++ [endP])) := by
  rw [List.chain'_cons']
  constructor
  · intro y hy
    have hsv := segmentVerts_ne_nil poly s e dir hne
    rw [List.head?_append_of_ne_nil _ hsv] at hy
    have hymem : y ∈ segmentVerts poly s e dir := by
      cases hsv2 : segmentVerts poly s e dir with
      | nil => exact absurd hsv2 hsv
      | cons w wrest =>
        rw [hsv2] at hy
        simp only [List.head?_cons, Option.mem_def, Option.some.injEq] at hy
        rw [← hy]
        exact List.mem_cons_self _ _
    intro heq
    exact hs (heq ▸ segmentVerts_mem poly s e dir y hymem)
  · rw [List.chain'_append]
    refine ⟨segmentVerts_chain poly s e dir hd hne, List.chain'_singleton _, ?_⟩
    intro x hx y hy
    simp only [List.head?_cons, Option.mem_def, Option.some.injEq] at hy
    subst hy
    have hxmem : x ∈ segmentVerts poly s e dir := by
      obtain ⟨h0, hxl⟩ := List.mem_getLast?_eq_getLast hx
      rw [hxl]
      exact List.getLast_mem h0
    intro heq
    exact he (heq ▸ segmentVerts_mem poly s e dir x hxmem)

/-- C7 (counterexample): `bridgeBad` is a bridge between the two squares
whose connection `b` runs corner to corner, with `b.to` located at the far
endpoint of its segment (`point_idx = 3`, point `(1100, 0)`).  Both splice
calls satisfy the same-polygon precondition, yet the spliced polygon ends
with the consecutive coincident points `(1100, 0), (1100, 0)`. -/
theorem connectPolygonsAlongBridge_duplicate_cex :
    ¬ closedNoConsecDup (connectPolygonsAlongBridge bridgeBad) ∧
      bridgeBad.a.«from».poly = bridgeBad.b.«from».poly ∧
      bridgeBad.a.«to».poly = bridgeBad.b.«to».poly := by
  decide

/-- C7 (amended): a polygon produced by `connectPolygonsAlongBridge`, read
as a closed contour, contains no two consecutive coincident points provided
that — beyond the same-polygon preconditions — no connection endpoint
coincides with a vertex of its polygon, the two connections have distinct
endpoints (nonzero length), and the source polygons themselves have no
cyclically-consecutive duplicate vertices.  Without these provisos the
splice can introduce consecutive duplicates (see the counterexample, where
an endpoint lying exactly on a vertex is duplicated). -/
theorem splice_shape_closed (bf af at_ bt : Point) (A B P1 P2 : List Point)
    (hAchain : List.Chain' (fun p q => p ≠ q) A)
    (hBchain : List.Chain' (fun p q => p ≠ q) B)
    (hAne : A ≠ []) (hBne : B ≠ [])
    (hAsub : ∀ x ∈ A, x ∈ P1) (hBsub : ∀ x ∈ B, x ∈ P2)
    (hbf : bf ∉ P1) (haf : af ∉ P1) (hat : at_ ∉ P2) (hbt : bt ∉ P2)
    (h_af_at : af ≠ at_) (h_bf_bt : bf ≠ bt) :
    closedNoConsecDup (bf :: (A ++ (af :: (at_ :: (B ++ [bt]))))) := by
  obtain ⟨a0, A2, rfl⟩ := List.exists_cons_of_ne_nil hAne
  obtain ⟨b0, B2, rfl⟩ := List.exists_cons_of_ne_nil hBne
  constructor
  · rw [List.chain'_cons']
    constructor
    · intro y hy
      simp only [List.cons_append, List.head?_cons, Option.mem_def, Option.some.injEq] at hy
      intro heq
      refine hbf ?_
      rw [heq, ← hy]
      exact hAsub a0 (List.mem_cons_self _ _)
    · rw [List.chain'_append]
      refine ⟨hAchain, ?_, ?_⟩
      · rw [List.chain'_cons']
        constructor
        · intro y hy
          simp only [List.head?_cons, Option.mem_def, Option.some.injEq] at hy
          intro heq
          exact h_af_at (heq.trans hy.symm)
        · rw [List.chain'_cons']
          constructor
          · intro y hy
            simp only [List.cons_append, List.head?_cons, Option.mem_def,
              Option.some.injEq] at hy
            intro heq
            refine hat ?_
            rw [heq, ← hy]
            exact hBsub b0 (List.mem_cons_self _ _)
          · rw [List.chain'_append]
            refine ⟨hBchain, List.chain'_singleton _, ?_⟩
            intro x hx y hy
            simp only [List.head?_cons, Option.mem_def, Option.some.injEq] at hy
            have hxmem : x ∈ b0 :: B2 := by
              obtain ⟨h0, hxl⟩ := List.mem_getLast?_eq_getLast hx
              rw [hxl]
              exact List.getLast_mem h0
            intro heq
            refine hbt ?_
            rw [hy, ← heq]
            exact hBsub x hxmem
      · intro x hx y hy
        simp only [List.head?_cons, Option.mem_def, Option.some.injEq] at hy
        have hxmem : x ∈ a0 :: A2 := by
          obtain ⟨h0, hxl⟩ := List.mem_getLast?_eq_getLast hx
          rw [hxl]
          exact List.getLast_mem h0
        intro heq
        refine haf ?_
        rw [hy, ← heq]
        exact hAsub x hxmem
  · intro _
    have hhead : (bf :: ((a0 :: A2) ++ (af :: (at_ :: ((b0 :: B2) ++ [bt]))))).head? =
        some bf := rfl
    have hlast : (bf :: ((a0 :: A2) ++ (af :: (at_ :: ((b0 :: B2) ++ [bt]))))).getLast? =
        some bt := by
      rw [show bf :: ((a0 :: A2) ++ (af :: (at_ :: ((b0 :: B2) ++ [bt])))) =
        (bf :: a0 :: A2) ++ (af :: (at_ :: ((b0 :: B2) ++ [bt]))) from by simp]
      rw [List.getLast?_append_cons]
      rw [show af :: (at_ :: ((b0 :: B2) ++ [bt])) =
        [af] ++ (at_ :: ((b0 :: B2) ++ [bt])) from by simp]
      rw [List.getLast?_append_cons]
      rw [show at_ :: ((b0 :: B2) ++ [bt]) = (at_ :: b0 :: B2) ++ [bt] from by simp]
      rw [List.getLast?_concat]
    rw [hhead, hlast]
    simp only [ne_eq, Option.some.injEq]
    exact h_bf_bt

/-- The vertex list `connectPolygonsAlongBridge` produces, in
right-associated form: the `b.from → a.from` walk on the first polygon
followed by the `a.to → b.to` walk on the second. -/
theorem connectPolygonsAlongBridge_eq (bridge : PolygonBridge) :
    connectPolygonsAlongBridge bridge =
      bridge.b.«from».p ::
        (segmentVerts bridge.a.«from».poly.pts bridge.b.«from».point_idx
            bridge.a.«from».point_idx (getPolygonDirection bridge.a.«from» bridge.b.«from») ++
          (bridge.a.«from».p :: (bridge.a.«to».p ::
            (segmentVerts bridge.b.«to».poly.pts bridge.a.«to».point_idx
                bridge.b.«to».point_idx (getPolygonDirection bridge.b.«to» bridge.a.«to») ++
              [bridge.b.«to».p])))) := by
  unfold connectPolygonsAlongBridge addPolygonSegment
  simp

/-- C7 (amended): a polygon produced by `connectPolygonsAlongBridge`, read
as a closed contour, contains no two consecutive coincident points provided
that — beyond the same-polygon preconditions — no connection endpoint
coincides with a vertex of its polygon, the two connections have distinct
endpoints (nonzero length), and the source polygons themselves have no
cyclically-consecutive duplicate vertices.  Without these provisos the
splice can introduce consecutive duplicates (see the counterexample, where
an endpoint lying exactly on a vertex is duplicated). -/
theorem connectPolygonsAlongBridge_no_consec_dup (bridge : PolygonBridge)
    (hne1 : bridge.a.«from».poly.pts ≠ [])
    (hne2 : bridge.b.«to».poly.pts ≠ [])
    (hd1 : noCyclicConsecDup bridge.a.«from».poly.pts)
    (hd2 : noCyclicConsecDup bridge.b.«to».poly.pts)
    (hv1a : bridge.a.«from».p ∉ bridge.a.«from».poly.pts)
    (hv1b : bridge.b.«from».p ∉ bridge.a.«from».poly.pts)
    (hv2a : bridge.a.«to».p ∉ bridge.b.«to».poly.pts)
    (hv2b : bridge.b.«to».p ∉ bridge.b.«to».poly.pts)
    (hlen_a : bridge.a.«from».p ≠ bridge.a.«to».p)
    (hlen_b : bridge.b.«from».p ≠ bridge.b.«to».p) :
    closedNoConsecDup (connectPolygonsAlongBridge bridge) := by
  rw [connectPolygonsAlongBridge_eq]
  exact splice_shape_closed bridge.b.«from».p bridge.a.«from».p bridge.a.«to».p
    bridge.b.«to».p _ _ bridge.a.«from».poly.pts bridge.b.«to».poly.pts
    (segmentVerts_chain _ _ _ _ hd1 hne1) (segmentVerts_chain _ _ _ _ hd2 hne2)
    (segmentVerts_ne_nil _ _ _ _ hne1) (segmentVerts_ne_nil _ _ _ _ hne2)
    (segmentVerts_mem _ _ _ _) (segmentVerts_mem _ _ _ _)
    hv1b hv1a hv2a hv2b hlen_a hlen_b

/-- C7 (witness): the amended theorem applied to `bridgeGood`, whose four
endpoints are interior to their boundary segments; the spliced two-squares
polygon has no consecutive coincident points. -/
theorem connectPolygonsAlongBridge_no_consec_dup_witness :
    closedNoConsecDup (connectPolygonsAlongBridge bridgeGood) :=
  connectPolygonsAlongBridge_no_consec_dup bridgeGood (by decide) (by decide)
    (by decide) (by decide) (by decide) (by decide) (by decide) (by decide)
    (by decide) (by decide)
